import Mathlib

/-!
# Verification of the quantnn multi-scale encoder core

Shallow embedding of `quantnn/models/pytorch/encoders.py` (and the parts of the
repository its specification refers to), together with theorems settling the
claims about the encoder framework: scale/channel planning, the sequential and
multi-input spatial encoders, the parallel encoder levels, and the cascading
encoders with their depth-keyed module maps.
-/

namespace Quantnn

/-! ## Scale planner

`_calculate_output_scales` (encoders.py, lines 85-94): starting from
`scl = base_scale`, for each factor `f_d` update `scl := f_d * scl` and append
the updated value. -/

/-- `_calculate_output_scales(base_scale, downsampling_factors)`
(encoders.py, lines 85-94). -/
def calculate_output_scales (base_scale : Nat) : List Nat → List Nat
  | [] => []
  | f_d :: rest => (f_d * base_scale) :: calculate_output_scales (f_d * base_scale) rest

/-- The scale sequence derived by `SpatialEncoder.__init__` (encoders.py,
lines 167-171): a factor of `1` is prepended (`downsampling_factors =
[1] + downsampling_factors`, no downsampling before the first stage) before
calling `_calculate_output_scales`. -/
def spatialEncoderScales (base_scale : Nat) (downsampling_factors : List Nat) : List Nat :=
  calculate_output_scales base_scale (1 :: downsampling_factors)

lemma calculate_output_scales_length (b : Nat) (fs : List Nat) :
    (calculate_output_scales b fs).length = fs.length := by
  induction fs generalizing b with
  | nil => rfl
  | cons f rest ih => simp [calculate_output_scales, ih]

lemma spatialEncoderScales_eq (b : Nat) (fs : List Nat) :
    spatialEncoderScales b fs = b :: calculate_output_scales b fs := by
  simp [spatialEncoderScales, calculate_output_scales]

lemma spatialEncoderScales_length (b : Nat) (fs : List Nat) :
    (spatialEncoderScales b fs).length = fs.length + 1 := by
  rw [spatialEncoderScales_eq]
  simp [calculate_output_scales_length]

lemma spatialEncoderScales_step (b : Nat) (fs : List Nat) :
    ∀ i, i < fs.length →
      (spatialEncoderScales b fs).getD (i + 1) 0
        = fs.getD i 0 * (spatialEncoderScales b fs).getD i 0 := by
  induction fs generalizing b with
  | nil => intro i hi; simp at hi
  | cons f rest ih =>
    intro i hi
    rw [spatialEncoderScales_eq] at *
    match i with
    | 0 => simp [calculate_output_scales]
    | Nat.succ j =>
      have hj : j < rest.length := by simpa using hi
      have := ih (f * b) j hj
      rw [spatialEncoderScales_eq] at this
      simpa [calculate_output_scales] using this

lemma spatialEncoderScales_chain (b : Nat) (fs : List Nat)
    (hb : 1 ≤ b) (hf : ∀ f ∈ fs, 2 ≤ f) :
    List.Chain' (· < ·) (spatialEncoderScales b fs) := by
  induction fs generalizing b with
  | nil => simp [spatialEncoderScales, calculate_output_scales]
  | cons f rest ih =>
    have hfb : b < f * b := by
      have h2 : 2 ≤ f := hf f (by simp)
      exact Nat.lt_of_lt_of_le (by omega : b < 2 * b) (Nat.mul_le_mul_right b h2)
    have hrest := ih (f * b) (le_trans hb (Nat.le_of_lt hfb))
      (fun g hg => hf g (by simp [hg]))
    rw [spatialEncoderScales_eq] at hrest ⊢
    simp only [calculate_output_scales, one_mul]
    exact List.chain'_cons.mpr ⟨hfb, hrest⟩

/-- C3: for every base scale and every downsampling-factor list (whose length
is `n_stages - 1`), the scale sequence derived by `SpatialEncoder.__init__`
has length `n_stages = fs.length + 1`, starts with the base scale, and each
subsequent scale is the previous scale multiplied by the corresponding factor;
for valid configurations (positive base scale, every factor at least 2) the
sequence is strictly increasing. -/
theorem spatialEncoderScales_spec (base_scale : Nat) (fs : List Nat)
    (hb : 1 ≤ base_scale) (hf : ∀ f ∈ fs, 2 ≤ f) :
    (spatialEncoderScales base_scale fs).length = fs.length + 1 ∧
    (spatialEncoderScales base_scale fs).head? = some base_scale ∧
    (∀ i, i < fs.length →
      (spatialEncoderScales base_scale fs).getD (i + 1) 0
        = fs.getD i 0 * (spatialEncoderScales base_scale fs).getD i 0) ∧
    List.Chain' (· < ·) (spatialEncoderScales base_scale fs) :=
  ⟨spatialEncoderScales_length base_scale fs,
   by rw [spatialEncoderScales_eq]; rfl,
   spatialEncoderScales_step base_scale fs,
   spatialEncoderScales_chain base_scale fs hb hf⟩

/-- Witness for C3 with base scale 1 and factors `[2, 3, 4]` (the spec's own
example: resulting scales `[1, 2, 6, 24]`). -/
theorem spatialEncoderScales_spec_witness :
    (1 ≤ 1 ∧ ∀ f ∈ [2, 3, 4], 2 ≤ f) ∧
    ((spatialEncoderScales 1 [2, 3, 4]).length = [2, 3, 4].length + 1 ∧
     (spatialEncoderScales 1 [2, 3, 4]).head? = some 1 ∧
     (∀ i, i < [2, 3, 4].length →
       (spatialEncoderScales 1 [2, 3, 4]).getD (i + 1) 0
         = [2, 3, 4].getD i 0 * (spatialEncoderScales 1 [2, 3, 4]).getD i 0) ∧
     List.Chain' (· < ·) (spatialEncoderScales 1 [2, 3, 4])) :=
  ⟨⟨by decide, by decide⟩, spatialEncoderScales_spec 1 [2, 3, 4] (by decide) (by decide)⟩

/-! ## Python name resolution for `CascadingEncoder.__init__`

`CascadingEncoder.__init__` (encoders.py, lines 767-921) declares the
parameter `stage_depths` (line 771) but its body reads the plain name
`stages` (first at line 817, `n_stages = len(stages)`).  A Python name is
resolved against the function's local scope, the module's global scope and the
builtins; an unresolvable name raises `NameError`.  The scopes below are
transcribed from the source files. -/

/-- Python exceptions distinguished by the embedding. -/
inductive PyExc where
  | nameError (name : String)
  deriving DecidableEq, Repr

/-- Names bound at module level in `quantnn/models/pytorch/encoders.py`:
the imports (lines 7-16) and the top-level definitions. -/
def encodersModuleNames : List String :=
  ["dataclass", "log", "Optional", "Callable", "Union", "List", "Dict", "Tuple",
   "torch", "nn", "PackedTensor", "forward", "ParamCount", "ConvBlockFactory",
   "BlockAggregatorFactory", "DEFAULT_BLOCK_FACTORY", "DEFAULT_AGGREGATOR_FACTORY",
   "SequentialStageFactory", "_calculate_output_scales", "SpatialEncoder",
   "MultiInputSpatialEncoder", "DenseEncoder", "ParallelEncoderLevel",
   "ParallelEncoder", "CascadingEncoder", "DenseCascadingEncoder"]

/-- Names bound in the local scope of `CascadingEncoder.__init__` at the time
line 817 (`n_stages = len(stages)`) executes: exactly the parameters
(lines 768-780).  The statements before line 817 (`super().__init__()`, the
`block_factory` default, and the attribute assignments on `self`) bind no new
plain local name. -/
def cascadingInitLocalNames : List String :=
  ["self", "channels", "stage_depths", "block_factory", "channel_scaling",
   "max_channels", "downsampler_factory", "upsampler_factory",
   "downsampling_factors", "stem_factory", "base_scale", "kwargs"]

/-- The Python builtins referenced anywhere in `encoders.py`. -/
def pythonBuiltinNames : List String :=
  ["len", "isinstance", "int", "max", "min", "range", "zip", "list", "str",
   "ValueError", "enumerate", "super", "dict"]

/-- Resolution of a plain name inside `CascadingEncoder.__init__`: local
scope, then module globals, then builtins; otherwise `NameError`. -/
def resolveCascInitName (n : String) : Except PyExc Unit :=
  if n ∈ cascadingInitLocalNames ∨ n ∈ encodersModuleNames ∨ n ∈ pythonBuiltinNames then
    Except.ok ()
  else
    Except.error (.nameError n)

/-- The arguments accepted by `CascadingEncoder.__init__` (encoders.py,
lines 768-780).  Factories are recorded by presence, since the constructor
fails before applying any of them. -/
structure CascadingEncoderArgs where
  channels : Sum Nat (List Nat)
  stage_depths : List Nat
  block_factory : Option Unit
  channel_scaling : Nat
  max_channels : Option Nat
  downsampler_factory : Option Unit
  upsampler_factory : Option Unit
  downsampling_factors : Option (List Nat)
  stem_factory : Option Unit
  base_scale : Nat

/-- Statement-by-statement trace of `CascadingEncoder.__init__`
(encoders.py, lines 767-921).  The statements up to line 816
(`super().__init__()`, defaulting `block_factory`, and the attribute
assignments `self.channel_scaling`, `self.downsamplers`, `self.upsamplers`)
read only bound parameters and module globals.  Line 817,
`n_stages = len(stages)`, is the first statement reading the name `stages`;
its resolution decides whether execution continues.  (Under the repository's
actual scopes the lookup fails, so the continuation is never reached; the unit
value stands for the never-constructed encoder object.) -/
def cascadingEncoderInit (args : CascadingEncoderArgs) : Except PyExc Unit := do
  let _block_factory := args.block_factory.getD ()
  resolveCascInitName "stages"
  pure ()

/-- All names bound by a `class`, `def`, import or top-level assignment in each
source file of the repository, keyed by file path. -/
def repoDefinedNames : List (String × List String) :=
  [("quantnn/data.py",
    ["OrderedDict", "Iterable", "Mapping", "ThreadPoolExecutor",
     "ProcessPoolExecutor", "logging", "multiprocessing", "Queue", "queue",
     "tempfile", "np", "DatasetError", "CachedDataFolder", "sftp", "_LOGGER",
     "split", "DatasetLoader", "DataFolder", "LazyDataFolder", "BatchedDataset",
     "run", "__init__", "__getitem__", "__len__", "__iter__", "__del__"]),
   ("quantnn/qrnn.py",
    ["copy", "pickle", "importlib", "np", "qf", "QuantnnException",
     "UnsupportedBackendException", "keras", "pytorch", "backend",
     "set_backend", "get_backend", "create_model", "QRNN", "train", "predict",
     "cdf", "pdf", "sample_posterior", "sample_posterior_gaussian_fit",
     "posterior_mean", "crps", "probability_larger_than",
     "probability_less_than", "calibration", "save", "load", "__getstate__",
     "__setstate__", "__init__"]),
   ("quantnn/models/pytorch/encoders.py",
    ["dataclass", "log", "Optional", "Callable", "Union", "List", "Dict",
     "Tuple", "torch", "nn", "PackedTensor", "forward", "ParamCount",
     "ConvBlockFactory", "BlockAggregatorFactory", "DEFAULT_BLOCK_FACTORY",
     "DEFAULT_AGGREGATOR_FACTORY", "SequentialStageFactory",
     "_calculate_output_scales", "SpatialEncoder", "MultiInputSpatialEncoder",
     "DenseEncoder", "ParallelEncoderLevel", "ParallelEncoder",
     "CascadingEncoder", "DenseCascadingEncoder", "__call__", "__init__",
     "forward_with_skips", "skip_connections", "downsampler_factory",
     "upsampler_factory"]),
   ("quantnn/models/pytorch/fully_connected.py",
    ["Optional", "Callable", "Tuple", "nn", "torch", "PytorchModel",
     "activations", "nm", "FullyConnected", "FullyConnectedBlock", "MLP",
     "MLPBlock", "__init__", "forward"]),
   ("quantnn/models/pytorch/lightning.py",
    ["sys", "pickle", "np", "pl", "torch", "nn", "rank_zero_only",
     "PackedTensor", "QuantnnLightning", "combine_outputs",
     "combine_outputs_dict", "combine_outputs_list", "configure_optimizers",
     "on_fit_end", "on_load_checkpoint", "on_save_checkpoint",
     "on_validation_epoch_end", "on_validation_epoch_start", "stage",
     "stage_name", "tensorboard", "to_device", "training_step",
     "validation_step", "__init__"]),
   ("test/models/pytorch/test_encoders.py",
    ["torch", "nn", "factories", "ResNetBlockFactory",
     "AverageAggregatorFactory", "SpatialEncoder", "MultiInputSpatialEncoder",
     "ParallelEncoderLevel", "ParallelEncoder", "CascadingEncoder",
     "DenseCascadingEncoder", "downsampler_factory", "test_spatial_encoder",
     "test_spatial_encoder_downsampler_factory",
     "test_multi_input_spatial_encoder", "test_zero_depth_stage",
     "test_multi_input_spatial_encoder_downsampler_factory",
     "test_spatial_encoder_w_stem", "test_parallel_encoder_stage",
     "test_parallel_encoder", "test_cascading_encoder",
     "test_dense_cascading_encoder"])]

end Quantnn

namespace Quantnn

/-- C1: for every argument combination, `CascadingEncoder.__init__` raises an
uncaught `NameError` at `n_stages = len(stages)` (line 817): the parameter is
named `stage_depths` while the body reads the unbound name `stages`, so no
`CascadingEncoder` value is ever constructed (in particular no block is built
and `forward` is unreachable); moreover the name `StageConfig` is defined in
no source file of the repository. -/
theorem cascadingEncoderInit_nameError (args : CascadingEncoderArgs) :
    cascadingEncoderInit args = Except.error (PyExc.nameError "stages") ∧
    "stages" ∉ cascadingInitLocalNames ∧
    "stages" ∉ encodersModuleNames ∧
    (∀ p ∈ repoDefinedNames, "StageConfig" ∉ p.2) := by
  refine ⟨?_, by decide, by decide, by decide⟩
  rfl

/-- Witness for C1 at a concrete argument record. -/
theorem cascadingEncoderInit_nameError_witness :
    cascadingEncoderInit
      ⟨Sum.inr [32, 64, 128], [3, 3, 3], none, 2, none, none, none, none, none, 1⟩
      = Except.error (PyExc.nameError "stages") :=
  (cascadingEncoderInit_nameError
    ⟨Sum.inr [32, 64, 128], [3, 3, 3], none, 2, none, none, none, none, none, 1⟩).1

/-! ## `SpatialEncoder.forward`

Symbolic-tensor embedding of `SpatialEncoder.forward` (encoders.py,
lines 254-279) and `forward_with_skips` (lines 234-252).  Module handles built
by the factories at construction are deterministic functions of their input
(the claim's hypothesis), identified here by their stage index; the encoder
value is threaded through the call explicitly so that the absence of mutation
of the structural state is a statement, not a convention. -/

/-- Symbolic tensor values produced by a `SpatialEncoder` forward pass. -/
inductive ST where
  /-- the tensor `x` passed to `forward` -/
  | inp
  /-- output of `self.stem` -/
  | stem (t : ST)
  /-- output of the downsampler module stored at stage `i` -/
  | down (i : Nat) (t : ST)
  /-- output of the stage module stored at stage `i` -/
  | stage (i : Nat) (t : ST)
  deriving DecidableEq, Repr

/-- A downsampler slot of `self.downsamplers`: either the `nn.Identity()`
substituted when no downsampling applies, or a resampler module. -/
inductive DownMod where
  | identity
  | mod (i : Nat)
  deriving DecidableEq, Repr

/-- Structural state of a constructed `SpatialEncoder`: everything fixed at
construction that `forward` reads (`self.stem`, `self.downsamplers`,
`self.stages`, `self.scales`, `self.channels`). -/
structure SpatialEncoderState where
  scales : List Nat
  channels : List Nat
  downsamplers : List DownMod
  nStages : Nat
  hasStem : Bool
  deriving DecidableEq, Repr

/-- Application of a downsampler slot: `nn.Identity()` returns its argument,
a resampler module produces a new tensor. -/
def DownMod.apply : DownMod → ST → ST
  | .identity, t => t
  | .mod i, t => ST.down i t

/-- `SpatialEncoder.forward(x, return_skips=False)` (encoders.py,
lines 254-279): apply the stem when configured, then
`for down, stage in zip(self.downsamplers, self.stages): y = stage(down(y))`.
The stage modules are identified by their index in `self.stages`.  The
encoder state is taken and returned explicitly: the source assigns no
attribute of `self` during `forward`. -/
def spatialEncoderForward (enc : SpatialEncoderState) (x : ST) :
    SpatialEncoderState × ST :=
  let x1 := if enc.hasStem then ST.stem x else x
  let y := (List.range (min enc.downsamplers.length enc.nStages)).foldl
    (fun y i => ST.stage i ((enc.downsamplers.getD i .identity).apply y)) x1
  (enc, y)

/-- `SpatialEncoder.forward(x, return_skips=True)` (encoders.py,
lines 234-252 via line 272): same loop, recording `skips[scl] = y` at every
stage. -/
def spatialEncoderForwardWithSkips (enc : SpatialEncoderState) (x : ST) :
    SpatialEncoderState × List (Nat × ST) :=
  let x1 := if enc.hasStem then ST.stem x else x
  let r := (List.range (min enc.downsamplers.length enc.nStages)).foldl
    (fun (acc : ST × List (Nat × ST)) i =>
      let y := ST.stage i ((enc.downsamplers.getD i .identity).apply acc.1)
      (y, acc.2 ++ [(enc.scales.getD i 0, y)]))
    (x1, [])
  (enc, r.2)

/-! ## `MultiInputSpatialEncoder`

Embedding of `MultiInputSpatialEncoder.__init__` (encoders.py, lines 291-393)
and `MultiInputSpatialEncoder.forward` (lines 438-490).  Forward evaluation
also records the sequence of module invocations (downsampler, stem, stage,
aggregator) in source order, so that statements about *when* aggregation
happens relative to a stage's blocks are about an observable trace. -/

/-- Symbolic tensors of the multi-input encoder. -/
inductive MT where
  /-- `x[name]`, an entry of the input dict -/
  | named (name : String)
  /-- `self.stems[name](...)` for a custom (non-identity) stem -/
  | stemApp (name : String) (t : MT)
  /-- output of the downsampler module at stage `i` -/
  | downApp (i : Nat) (t : MT)
  /-- output of the stage module at stage `i` -/
  | stageApp (i : Nat) (t : MT)
  /-- `self.aggregators[str(scale)](*args)` -/
  | aggApp (scale : Nat) (args : List MT)
  deriving Repr

/-- Whether a symbolic tensor depends on the input named `n`. -/
def mtMentions (n : String) : MT → Bool
  | .named m => m == n
  | .stemApp m t => m == n || mtMentions n t
  | .downApp _ t => mtMentions n t
  | .stageApp _ t => mtMentions n t
  | .aggApp _ args => args.attach.any (fun p => mtMentions n p.1)
decreasing_by
  all_goals simp_wf
  have := List.sizeOf_lt_of_mem p.2
  omega

/-- Module-invocation events of a forward pass, in execution order. -/
inductive MEv where
  | downEv (i : Nat)
  | stemEv (name : String)
  | stageEv (i : Nat)
  | aggEv (scale : Nat) (arity : Nat)
  deriving DecidableEq, Repr

/-- Construction-time errors of the encoders. -/
inductive CfgErr where
  | valueError
  | keyError
  | indexError
  deriving DecidableEq, Repr

/-- Structural state of a constructed `MultiInputSpatialEncoder`. -/
structure MIEncoderState where
  baseScale : Nat
  scales : List Nat
  channels : List Nat
  stageDepths : List Nat
  downsamplers : List DownMod
  /-- `self.aggregate_after` (lines 332-335) -/
  aggregateAfter : Bool
  /-- input name ↦ `true` when a custom stem module was built, `false` for the
  default `nn.Identity()` stem (lines 350-353, 368-370) -/
  stems : List (String × Bool)
  /-- `self.stage_inputs`: scale ↦ names of the inputs registered at it -/
  stageInputs : List (Nat × List String)
  /-- scale ↦ number of tensors the aggregator built for that scale expects
  (lines 373-393) -/
  aggArity : List (Nat × Nat)
  deriving Repr

/-- Registration of the per-input stems (lines 345-371): each input's scale
must be a stage scale (`ValueError` otherwise, line 362); with custom stem
factories, a registered input missing from the factory dict raises
`KeyError` (line 368).  Records, per input name, whether a custom stem
module was built. -/
def miStemsFold (scales : List Nat) (stem_factories : Option (List String))
    (inputs : List (String × Nat)) : Except CfgErr (List (String × Bool)) :=
  inputs.foldlM (fun acc p =>
    if p.2 ∈ scales then
      match stem_factories with
      | none => pure (acc ++ [(p.1, false)])
      | some l =>
        if p.1 ∈ l then pure (acc ++ [(p.1, true)]) else .error .keyError
    else .error .valueError) []

/-- The aggregator-construction loop (lines 373-393): at every scale above
the base scale an aggregator for `len(names) + 1` tensors is built; at the
base scale one for `len(names)` tensors is built when 2 or more inputs are
registered there (`channels[scale]`, indexed by the scale value, can raise
`IndexError`). -/
def miAggFold (channels : List Nat) (base_scale : Nat)
    (stageInputs : List (Nat × List String)) : Except CfgErr (List (Nat × Nat)) :=
  stageInputs.enum.foldlM (fun acc q =>
    let scale := q.2.1
    let names := q.2.2
    if scale > base_scale then
      pure (acc ++ [(scale, names.length + 1)])
    else if names.length > 1 then
      match channels.get? scale with
      | none => .error .indexError
      | some _ => pure (acc ++ [(scale, names.length)])
    else pure acc) []

/-- Assembly of the encoder record once the two fallible registration loops
have run. -/
def miInitFinish (base_scale : Nat) (scales channels stage_depths : List Nat)
    (downsamplers : List DownMod) (aggregateAfter : Bool)
    (stageInputs : List (Nat × List String))
    (stemsE : Except CfgErr (List (String × Bool)))
    (aggE : Except CfgErr (List (Nat × Nat))) : Except CfgErr MIEncoderState :=
  match stemsE with
  | .error e => .error e
  | .ok stems =>
    match aggE with
    | .error e => .error e
    | .ok aggArity =>
      .ok ⟨base_scale, scales, channels, stage_depths, downsamplers,
           aggregateAfter, stems, stageInputs, aggArity⟩

lemma miInitFinish_ok (base_scale : Nat) (scales channels stage_depths : List Nat)
    (downsamplers : List DownMod) (aggregateAfter : Bool)
    (stageInputs : List (Nat × List String))
    (stemsE : Except CfgErr (List (String × Bool)))
    (aggE : Except CfgErr (List (Nat × Nat))) (enc : MIEncoderState)
    (h : miInitFinish base_scale scales channels stage_depths downsamplers
        aggregateAfter stageInputs stemsE aggE = Except.ok enc) :
    enc.aggregateAfter = aggregateAfter := by
  cases stemsE <;> cases aggE <;>
    simp [miInitFinish] at h
  rw [← h]

/-- `MultiInputSpatialEncoder.__init__` (lines 291-393), including the
`SpatialEncoder.__init__` call (lines 147-224, with `stem_factory=None`).
Factories are recorded by presence; `stem_factories`, when given, is the set
of input names it maps. -/
def miInit (inputs : List (String × Nat)) (channels : List Nat)
    (stage_depths : List Nat) (downsampling_factors : Option (List Nat))
    (stem_factories : Option (List String)) (hasDownsamplerFactory : Bool)
    (base_scale : Nat) : Except CfgErr MIEncoderState :=
  let n_stages := stage_depths.length
  if channels.length = n_stages then
    let factors := downsampling_factors.getD (List.replicate (n_stages - 1) 2)
    if stage_depths.length = factors.length + 1 then
      let factors1 := 1 :: factors
      let scales := calculate_output_scales base_scale factors1
      let downsamplers :=
        if hasDownsamplerFactory then
          factors1.enum.map (fun p => if p.2 > 1 then DownMod.mod p.1 else DownMod.identity)
        else
          List.replicate n_stages DownMod.identity
      let stageInputs := scales.map
        (fun s => (s, (inputs.filter (fun p => p.2 = s)).map (·.1)))
      miInitFinish base_scale scales channels stage_depths downsamplers
        (!hasDownsamplerFactory) stageInputs
        (miStemsFold scales stem_factories inputs)
        (miAggFold channels base_scale stageInputs)
    else .error .valueError
  else .error .valueError

/-- A stage of the sequential encoders: a zero-depth stage is an empty
`nn.Sequential`, which returns its input unchanged; a stage with blocks
transforms it. -/
def applyStageMI (enc : MIEncoderState) (i : Nat) (t : MT) : MT :=
  if enc.stageDepths.getD i 0 = 0 then t else MT.stageApp i t

/-- Running one registered input through its stem:
`self.stems[inpt](x[inpt])` (lines 475-477).  `none` when the stem is
missing from the module dict. -/
def stemApply (enc : MIEncoderState) (x : String → MT) (n : String) : Option MT :=
  (enc.stems.lookup n).map (fun isMod => if isMod then MT.stemApp n (x n) else x n)

/-- Application of a downsampler slot to a symbolic tensor of the
multi-input encoder. -/
def downApplyMT : DownMod → MT → MT
  | .identity, t => t
  | .mod j, t => MT.downApp j t

/-- `if down is not None: y = down(y)` (lines 468-470): the list stores
`nn.Identity()` or a module, never `None`, so the branch is always taken;
`nn.Identity()` passes `None` through, a resampler module applied to `None`
is a runtime error. -/
def miDown : DownMod → Option MT → Option (Option MT)
  | .identity, v => some v
  | .mod j, some t => some (some (MT.downApp j t))
  | .mod _, none => none

lemma miDown_some (d : DownMod) (t : MT) :
    miDown d (some t) = some (some (downApplyMT d t)) := by
  cases d <;> rfl

/-- One iteration of the `MultiInputSpatialEncoder.forward` loop
(lines 466-488) at stage index `i`, carrying the possibly-absent main-pathway
tensor `y`.  The outer `Option` is runtime failure (a module applied to
`None`, a missing dict key); the result pairs the new carried tensor with the
module invocations of the iteration in execution order. -/
def miStep (enc : MIEncoderState) (x : String → MT) (y : Option MT) (i : Nat) :
    Option (Option MT × List MEv) :=
  let scale := enc.scales.getD i 0
  let names := (enc.stageInputs.lookup scale).getD []
  Option.bind (miDown (enc.downsamplers.getD i .identity) y) fun y =>
  Option.bind (names.mapM (stemApply enc x)) fun aggInputs =>
  -- `if y is not None and self.aggregate_after: y = stage(y)` (lines 480-481)
  let r1 : Option MT × List MEv :=
    match y, enc.aggregateAfter with
    | some t, true => (some (applyStageMI enc i t), [MEv.stageEv i])
    | v, _ => (v, [])
  -- aggregation / pass-through (lines 483-486)
  let r2 : Option MT × List MEv :=
    if aggInputs.length > 1 then
      (some (MT.aggApp scale aggInputs), [MEv.aggEv scale aggInputs.length])
    else if aggInputs.length = 1 then (aggInputs.head?, [])
    else (r1.1, [])
  -- `if not self.aggregate_after: y = stage(y)` (lines 487-488)
  let r3E : Option (Option MT × List MEv) :=
    if enc.aggregateAfter then some (r2.1, ([] : List MEv))
    else
      match r2.1 with
      | some t => some (some (applyStageMI enc i t), [MEv.stageEv i])
      | none =>
        if enc.stageDepths.getD i 0 = 0 then some ((none : Option MT), [MEv.stageEv i])
        else none
  Option.map
    (fun r3 => (r3.1, [MEv.downEv i] ++ names.map MEv.stemEv ++ r1.2 ++ r2.2 ++ r3.2))
    r3E

/-- `MultiInputSpatialEncoder.forward(x, return_skips=False)`
(lines 438-490): the loop over `zip(self.scales, self.downsamplers,
self.stages)` starting from `y = None`, returning the final carried tensor
and the concatenated invocation trace. -/
def miForward (enc : MIEncoderState) (x : String → MT) :
    Option (Option MT × List MEv) :=
  (List.range (min enc.scales.length
      (min enc.downsamplers.length enc.stageDepths.length))).foldlM
    (fun acc i => do
      let r ← miStep enc x acc.1 i
      pure (r.1, acc.2 ++ r.2))
    ((none : Option MT), ([] : List MEv))

/-- The encoder produced by
`MultiInputSpatialEncoder({"a": 1, "b": 2}, [1, 1], [1, 1])` (default
factors, identity stems, no external downsampler factory). -/
def miEncC4 : MIEncoderState :=
  ⟨1, [1, 2], [1, 1], [1, 1], [.identity, .identity], true,
   [("a", false), ("b", false)], [(1, ["a"]), (2, ["b"])], [(2, 2)]⟩

/-- C4: the code drops the main pathway.  For the encoder with input `a` at
the base scale and input `b` at scale 2, the forward pass returns the stem
output of `b` alone: the carried main-pathway tensor (which depends on `a`)
is overwritten by the single stem output instead of being combined with it,
the aggregator built for scale 2 — sized for 2 tensors, i.e. for the stem
output *and* the carried tensor — is never invoked (no aggregation event in
the trace), and the output does not depend on input `a` at all. -/
theorem miForward_drops_carried :
    miInit [("a", 1), ("b", 2)] [1, 1] [1, 1] none none false 1
      = Except.ok miEncC4 ∧
    miForward miEncC4 (fun n => MT.named n)
      = some (some (MT.named "b"),
          [MEv.downEv 0, MEv.stemEv "a", MEv.downEv 1, MEv.stemEv "b",
           MEv.stageEv 1]) ∧
    miEncC4.aggArity = [(2, 2)] ∧
    mtMentions "a" (MT.named "b") = false :=
  ⟨rfl, rfl, rfl, by simp [mtMentions]⟩

/-- The encoder produced by
`MultiInputSpatialEncoder({"a": 1, "b": 2, "c": 2}, [1, 1], [1, 1],
downsampler_factory=...)` (external downsampler factory supplied). -/
def miEncC5 : MIEncoderState :=
  ⟨1, [1, 2], [1, 1], [1, 1], [.identity, .mod 1], false,
   [("a", false), ("b", false), ("c", false)],
   [(1, ["a"]), (2, ["b", "c"])], [(2, 3)]⟩

/-- The invocation trace of `miEncC5`'s forward pass. -/
def miTraceC5 : List MEv :=
  [MEv.downEv 0, MEv.stemEv "a", MEv.stageEv 0, MEv.downEv 1,
   MEv.stemEv "b", MEv.stemEv "c", MEv.aggEv 2 2, MEv.stageEv 1]

/-- Counterexample to C5 as stated: with an external downsampler factory
supplied, at the stage with scale 2 the aggregator is invoked *before* the
stage's block, and the block runs on the aggregation result — the opposite
of the claimed order (block on the carried tensor first, aggregation after). -/
theorem miForward_aggBeforeStage_withDownsampler :
    miInit [("a", 1), ("b", 2), ("c", 2)] [1, 1] [1, 1] none none true 1
      = Except.ok miEncC5 ∧
    miForward miEncC5 (fun n => MT.named n)
      = some (some (MT.stageApp 1 (MT.aggApp 2 [MT.named "b", MT.named "c"])),
              miTraceC5) ∧
    miTraceC5.indexOf (MEv.aggEv 2 2) < miTraceC5.indexOf (MEv.stageEv 1) :=
  ⟨rfl, rfl, by decide⟩

/-- C5 (amended): the dependence is the opposite of the claim.  The
`aggregate_after` flag is set exactly when no external downsampler factory is
supplied; when the flag is `false` (external downsampler present) a stage
with 2 or more registered inputs invokes the aggregator first and then runs
the stage block on the aggregation result, and when the flag is `true` (no
external downsampler) the stage block runs on the carried tensor before the
aggregation step, whose result then replaces the block output whenever the
stage has registered inputs. -/
theorem miAggregationOrder :
    (∀ inputs channels stage_depths dfs sfs hasDown base enc,
        miInit inputs channels stage_depths dfs sfs hasDown base = Except.ok enc →
        enc.aggregateAfter = !hasDown) ∧
    (∀ (enc : MIEncoderState) (x : String → MT) (i : Nat) (t : MT)
        (aggInputs : List MT) (names : List String) (scale : Nat),
        scale = enc.scales.getD i 0 →
        names = (enc.stageInputs.lookup scale).getD [] →
        enc.aggregateAfter = false →
        names.mapM (stemApply enc x) = some aggInputs →
        1 < aggInputs.length →
        miStep enc x (some t) i = some
          (some (applyStageMI enc i (MT.aggApp scale aggInputs)),
           [MEv.downEv i] ++ names.map MEv.stemEv
             ++ [MEv.aggEv scale aggInputs.length, MEv.stageEv i])) ∧
    (∀ (enc : MIEncoderState) (x : String → MT) (i : Nat) (t : MT)
        (aggInputs : List MT) (names : List String) (scale : Nat),
        scale = enc.scales.getD i 0 →
        names = (enc.stageInputs.lookup scale).getD [] →
        enc.aggregateAfter = true →
        names.mapM (stemApply enc x) = some aggInputs →
        miStep enc x (some t) i = some
          ((if 1 < aggInputs.length then some (MT.aggApp scale aggInputs)
            else if aggInputs.length = 1 then aggInputs.head?
            else some (applyStageMI enc i
              (downApplyMT (enc.downsamplers.getD i .identity) t))),
           [MEv.downEv i] ++ names.map MEv.stemEv ++ [MEv.stageEv i]
             ++ (if 1 < aggInputs.length
                 then [MEv.aggEv scale aggInputs.length] else []))) := by
  refine ⟨?_, ?_, ?_⟩
  · intro inputs channels stage_depths dfs sfs hasDown base enc h
    by_cases h1 : channels.length = stage_depths.length
    · by_cases h2 : stage_depths.length
          = (dfs.getD (List.replicate (stage_depths.length - 1) 2)).length + 1
      · simp only [miInit, if_pos h1, if_pos h2] at h
        exact miInitFinish_ok _ _ _ _ _ _ _ _ _ _ h
      · simp only [miInit, if_pos h1, if_neg h2] at h
        exact Except.noConfusion h
    · simp only [miInit, if_neg h1] at h
      exact Except.noConfusion h
  · intro enc x i t aggInputs names scale hsc hn hafter hmap hlen
    subst hsc
    subst hn
    unfold miStep
    rw [miDown_some]
    simp only [Option.some_bind]
    rw [hmap]
    simp only [Option.some_bind]
    simp [hafter, hlen]
  · intro enc x i t aggInputs names scale hsc hn hafter hmap
    subst hsc
    subst hn
    unfold miStep
    rw [miDown_some]
    simp only [Option.some_bind]
    rw [hmap]
    simp only [Option.some_bind]
    rcases Nat.lt_or_ge 1 aggInputs.length with hlt | hge
    · simp [hafter, hlt]
    · have hnlt : ¬ 1 < aggInputs.length := not_lt.mpr hge
      by_cases h1 : aggInputs.length = 1 <;> simp [hafter, hnlt, h1]

/-- Witness for the amended C5 theorem, applying all three parts at concrete
values: the `miEncC5` construction for the flag equation and the external-
downsampler step, and the `miEncC4` construction for the stage-first step. -/
theorem miAggregationOrder_witness :
    miEncC5.aggregateAfter = !true ∧
    miStep miEncC5 (fun n => MT.named n)
        (some (MT.stageApp 0 (MT.named "a"))) 1 = some
      (some (applyStageMI miEncC5 1 (MT.aggApp 2 [MT.named "b", MT.named "c"])),
       [MEv.downEv 1] ++ ["b", "c"].map MEv.stemEv
         ++ [MEv.aggEv 2 2, MEv.stageEv 1]) ∧
    miStep miEncC4 (fun n => MT.named n) (some (MT.named "a")) 1 = some
      ((if 1 < [MT.named "b"].length then some (MT.aggApp 2 [MT.named "b"])
        else if [MT.named "b"].length = 1 then [MT.named "b"].head?
        else some (applyStageMI miEncC4 1
          (downApplyMT (miEncC4.downsamplers.getD 1 .identity) (MT.named "a")))),
       [MEv.downEv 1] ++ ["b"].map MEv.stemEv ++ [MEv.stageEv 1]
         ++ (if 1 < [MT.named "b"].length then [MEv.aggEv 2 1] else [])) :=
  ⟨miAggregationOrder.1 [("a", 1), ("b", 2), ("c", 2)] [1, 1] [1, 1] none none
      true 1 miEncC5 rfl,
   miAggregationOrder.2.1 miEncC5 (fun n => MT.named n) 1
      (MT.stageApp 0 (MT.named "a")) [MT.named "b", MT.named "c"]
      ["b", "c"] 2 rfl rfl rfl rfl (by decide),
   miAggregationOrder.2.2 miEncC4 (fun n => MT.named n) 1 (MT.named "a")
      [MT.named "b"] ["b"] 2 rfl rfl rfl rfl⟩

/-! ## `ParallelEncoderLevel`

Embedding of `ParallelEncoderLevel.__init__` (encoders.py, lines 594-663) and
`ParallelEncoderLevel.forward` (lines 665-691).  Module handles carry the
channel/factor arguments they were built with; a shape evaluator encodes the
factory protocol's shape contracts (§6 of the spec): a block maps
`channels_in` to `channels_out` at unchanged resolution, a downsampler
divides the spatial extent by its factor, an aggregator merges
same-resolution tensors. -/

/-- Symbolic tensors of a parallel encoder level. -/
inductive PT where
  /-- `x[i]`, an entry of the per-scale input list -/
  | inp (i : Nat)
  /-- the late-injection tensor `x_in` -/
  | xin
  /-- `block_factory(cin, cout)` output -/
  | blockApp (cin cout : Nat) (t : PT)
  /-- the 1×1 projection `nn.Conv2d(cin, cout, kernel_size=1)` -/
  | projApp (cin cout : Nat) (t : PT)
  /-- `downsampler_factory(cin, cout, f)` output -/
  | downApp (cin cout f : Nat) (t : PT)
  /-- `aggregator_factory(chans, cout)` applied to two tensors -/
  | aggApp (chans : List Nat) (cout : Nat) (a b : PT)
  /-- `input_aggregator_factory(chans, cout)` applied to two tensors -/
  | aggInApp (chans : List Nat) (cout : Nat) (a b : PT)
  deriving DecidableEq, Repr

/-- A projection slot: `nn.Identity()` when the channel counts already
match, a 1×1 convolution otherwise (lines 639-643). -/
inductive ProjMod where
  | id
  | conv (cin cout : Nat)
  deriving DecidableEq, Repr

/-- Application of a projection slot. -/
def projApply : ProjMod → PT → PT
  | .id, t => t
  | .conv cin cout, t => PT.projApp cin cout t

/-- Structural state of a constructed `ParallelEncoderLevel`.  The per-scale
module lists hold entries only for the scale indices above 0 processed by the
level, in increasing order (the `scale_index == 0` case appends only a
block). -/
structure PELevel where
  scalesStart : Nat
  levelIndex : Nat
  depth : Nat
  projections : List ProjMod
  downsamplers : List (Nat × Nat × Nat)
  aggregators : List (List Nat × Nat)
  blocks : List (Nat × Nat)
  aggIn : Option (List Nat × Nat)
  deriving DecidableEq, Repr

/-- `ParallelEncoderLevel.__init__` (lines 594-663).  The validity check
(line 618) rejects `level_index >= depth + len(scales)`; the band of
processed scale indices is `[max(0, level_index - depth + 1),
min(level_index + 1, len(channels)))` (lines 625-626; `level_index + 1 -
depth` in truncated `Nat` subtraction equals the `max`).  When an input
aggregator factory is supplied, `channels[level_index]` is read
(lines 659-663), which is an `IndexError` for `level_index` out of range. -/
def peLevelInit (channels scales : List Nat) (level_index depth : Nat)
    (hasInputAgg : Bool) : Except CfgErr PELevel :=
  if level_index ≥ depth + scales.length then .error .valueError
  else
    let scales_start := level_index + 1 - depth
    let scales_end := min (level_index + 1) channels.length
    let idxs := List.range' scales_start (scales_end - scales_start)
    let blocks := idxs.map (fun i => (channels.getD i 0, channels.getD i 0))
    let nz := idxs.filter (fun i => i ≠ 0)
    let projections := nz.map (fun i =>
      if channels.getD (i - 1) 0 ≠ channels.getD i 0 then
        ProjMod.conv (channels.getD (i - 1) 0) (channels.getD i 0)
      else ProjMod.id)
    let downsamplers := nz.map (fun i =>
      (channels.getD i 0, channels.getD i 0, scales.getD i 0 / scales.getD (i - 1) 0))
    let aggregators := nz.map (fun i =>
      ([channels.getD i 0, channels.getD i 0], channels.getD i 0))
    if hasInputAgg then
      match channels.get? level_index with
      | none => .error .indexError
      | some c =>
        .ok ⟨scales_start, level_index, depth, projections, downsamplers,
             aggregators, blocks, some ([c, c], c)⟩
    else
      .ok ⟨scales_start, level_index, depth, projections, downsamplers,
           aggregators, blocks, none⟩

/-- One iteration of the `ParallelEncoderLevel.forward` loop (lines 667-690)
at block offset `offset`.  `none` is a runtime failure: a list index out of
range, or reading the absent `self.agg_in` attribute. -/
def peStep (lvl : PELevel) (x : List PT) (xIn : Option PT) (offset : Nat) :
    Option PT := do
  let block ← lvl.blocks.get? offset
  let scale_index := lvl.scalesStart + offset
  if scale_index = 0 then
    let t ← x.get? scale_index
    pure (PT.blockApp block.1 block.2 t)
  else if scale_index < x.length then
    let index := if lvl.scalesStart = 0 then offset - 1 else offset
    let proj ← lvl.projections.get? index
    let dspec ← lvl.downsamplers.get? index
    let agg ← lvl.aggregators.get? index
    let xm ← x.get? (scale_index - 1)
    let xc ← x.get? scale_index
    let x1 := PT.downApp dspec.1 dspec.2.1 dspec.2.2 (projApply proj xm)
    pure (PT.blockApp block.1 block.2 (PT.aggApp agg.1 agg.2 x1 xc))
  else
    let index := if lvl.scalesStart = 0 then offset - 1 else offset
    let proj ← lvl.projections.get? index
    let dspec ← lvl.downsamplers.get? index
    let xm ← x.get? (scale_index - 1)
    let y := PT.downApp dspec.1 dspec.2.1 dspec.2.2 (projApply proj xm)
    let y2 ← match xIn with
      | some t =>
        match lvl.aggIn with
        | some a => some (PT.aggInApp a.1 a.2 y t)
        | none => none
      | none => some y
    pure (PT.blockApp block.1 block.2 y2)

/-- `ParallelEncoderLevel.forward` (lines 665-691):
`results = x[: max(self.level_index - self.depth + 1, 0)]`, then one appended
tensor per block, in block order. -/
def peForward (lvl : PELevel) (x : List PT) (xIn : Option PT) :
    Option (List PT) := do
  let rest ← (List.range lvl.blocks.length).mapM (peStep lvl x xIn)
  pure (x.take (lvl.levelIndex + 1 - lvl.depth) ++ rest)

/-- 4D tensor shape (batch, channels, height, width). -/
structure Shape where
  b : Nat
  c : Nat
  h : Nat
  w : Nat
  deriving DecidableEq, Repr

/-- Shape semantics of the factory protocol (§6): evaluates a symbolic
tensor to its shape given the shapes of the inputs, checking every module's
channel contract and the divisibility of the spatial extent by resampling
factors. -/
def evalShape (inShapes : List Shape) (xinShape : Option Shape) : PT → Option Shape
  | .inp i => inShapes.get? i
  | .xin => xinShape
  | .blockApp cin cout t => do
    let s ← evalShape inShapes xinShape t
    if s.c = cin then some ⟨s.b, cout, s.h, s.w⟩ else none
  | .projApp cin cout t => do
    let s ← evalShape inShapes xinShape t
    if s.c = cin then some ⟨s.b, cout, s.h, s.w⟩ else none
  | .downApp cin cout f t => do
    let s ← evalShape inShapes xinShape t
    if s.c = cin ∧ 0 < f ∧ f ∣ s.h ∧ f ∣ s.w then
      some ⟨s.b, cout, s.h / f, s.w / f⟩
    else none
  | .aggApp chans cout a b => do
    let sa ← evalShape inShapes xinShape a
    let sb ← evalShape inShapes xinShape b
    if chans = [sa.c, sb.c] ∧ sa.b = sb.b ∧ sa.h = sb.h ∧ sa.w = sb.w then
      some ⟨sa.b, cout, sa.h, sa.w⟩
    else none
  | .aggInApp chans cout a b => do
    let sa ← evalShape inShapes xinShape a
    let sb ← evalShape inShapes xinShape b
    if chans = [sa.c, sb.c] ∧ sa.b = sb.b ∧ sa.h = sb.h ∧ sa.w = sb.w then
      some ⟨sa.b, cout, sa.h, sa.w⟩
    else none

/-- Whether an `Except` value is a success. -/
def isOkE {ε α : Type} : Except ε α → Bool
  | .ok _ => true
  | .error _ => false

/-- Whether the outermost operation of a tensor is an input-aggregator
application. -/
def isAggInTop : PT → Bool
  | .aggInApp _ _ _ _ => true
  | _ => false

/-- The level built by
`ParallelEncoderLevel(channels=[8], scales=[1], level_index=1, depth=1)`:
an empty band (no blocks), constructed without error. -/
def peLvlBoundary : PELevel := ⟨1, 1, 1, [], [], [], [], none⟩

/-- Counterexample to C6 as stated: with `depth = 1` and one stage
(`n_stages = 1`), `level_index = 1 = depth + n_stages - 1`; the claim says
construction fails there with a configuration error, but the source checks
`level_index >= depth + len(scales)` (line 618), i.e. `1 >= 2`, and the
construction succeeds. -/
theorem peLevelInit_boundary_ok :
    peLevelInit [8] [1] 1 1 false = Except.ok peLvlBoundary ∧ 1 = 1 + 1 - 1 :=
  ⟨rfl, rfl⟩

/-- C6 (amended): `ParallelEncoderLevel` construction fails with a
configuration error exactly when `level_index ≥ depth + n_stages` (one more
than the claim states), and succeeds for every `level_index` strictly below
`depth + n_stages` — provided that, when an input aggregator factory is
supplied, `level_index` is also a valid index into `channels` (otherwise the
`channels[level_index]` read of lines 660-663 is an `IndexError`). -/
theorem peLevelInit_validates (channels scales : List Nat)
    (level_index depth : Nat) (hasAgg : Bool)
    (hagg : hasAgg = false ∨ level_index < channels.length) :
    (isOkE (peLevelInit channels scales level_index depth hasAgg) = true
      ↔ level_index < depth + scales.length) ∧
    (depth + scales.length ≤ level_index →
      peLevelInit channels scales level_index depth hasAgg
        = Except.error CfgErr.valueError) := by
  constructor
  · constructor
    · intro h
      by_contra hlt
      have hge : level_index ≥ depth + scales.length := by omega
      simp [peLevelInit, if_pos hge, isOkE] at h
    · intro hlt
      have hge : ¬ level_index ≥ depth + scales.length := by omega
      rcases hagg with hA | hA
      · simp [peLevelInit, if_neg hge, hA, isOkE]
      · cases hB : hasAgg
        · simp [peLevelInit, if_neg hge, isOkE]
        · have hc := List.getElem?_eq_getElem hA
          simp [peLevelInit, if_neg hge, hc, isOkE]
  · intro hge
    simp [peLevelInit, if_pos hge]

/-- Witness for the amended C6 theorem at the test configuration
`channels=[2,4,8,16], scales=[1,4,16,32], level_index=2, depth=4`. -/
theorem peLevelInit_validates_witness :
    (isOkE (peLevelInit [2, 4, 8, 16] [1, 4, 16, 32] 2 4 false) = true
      ↔ 2 < 4 + [1, 4, 16, 32].length) ∧
    (4 + [1, 4, 16, 32].length ≤ 2 →
      peLevelInit [2, 4, 8, 16] [1, 4, 16, 32] 2 4 false
        = Except.error CfgErr.valueError) :=
  peLevelInit_validates [2, 4, 8, 16] [1, 4, 16, 32] 2 4 false (Or.inl rfl)

/-- The level built by `ParallelEncoderLevel(channels=[2,4], scales=[1,2],
level_index=1, depth=1, input_aggregator_factory=...)`. -/
def peLvlC8 : PELevel :=
  ⟨1, 1, 1, [ProjMod.conv 2 4], [(4, 4, 2)], [([4, 4], 4)], [(4, 4)],
   some ([4, 4], 4)⟩

/-- Counterexample to C8 as stated: for the level above with one incoming
tensor and a late-injection tensor supplied, the injected tensor is
aggregated with the downsampled projection *before* the block — it appears
inside the block's input, and no tensor of the result has an
input-aggregator application as its outermost operation, as aggregation
after the block would produce. -/
theorem peForward_lateInjection_insideBlock :
    peLevelInit [2, 4] [1, 2] 1 1 true = Except.ok peLvlC8 ∧
    peForward peLvlC8 [PT.inp 0] (some PT.xin)
      = some [PT.inp 0,
          PT.blockApp 4 4 (PT.aggInApp [4, 4] 4
            (PT.downApp 4 4 2 (PT.projApp 2 4 (PT.inp 0))) PT.xin)] ∧
    ([PT.inp 0,
      PT.blockApp 4 4 (PT.aggInApp [4, 4] 4
        (PT.downApp 4 4 2 (PT.projApp 2 4 (PT.inp 0))) PT.xin)].all
      (fun t => !isAggInTop t)) = true :=
  ⟨rfl, rfl, rfl⟩

/-- C8 (amended): whenever an input aggregator is configured and a
late-injection tensor is supplied, the tensor is aggregated with the
downsampled projection of the previous scale's tensor *before* the block at
the level's deepest newly-active scale runs (it enters the block's input,
rather than being aggregated after the block), and this happens only at a
processed scale index with no tensor yet in the incoming list: at scale
indices already covered by the incoming list the injected tensor is ignored
entirely. -/
theorem peStep_lateInjection :
    (∀ (lvl : PELevel) (x : List PT) (t : PT) (offset : Nat)
        (a : List Nat × Nat) (bspec : Nat × Nat) (proj : ProjMod)
        (dspec : Nat × Nat × Nat) (xm : PT),
        lvl.aggIn = some a →
        lvl.blocks.get? offset = some bspec →
        lvl.scalesStart + offset ≠ 0 →
        ¬ lvl.scalesStart + offset < x.length →
        lvl.projections.get? (if lvl.scalesStart = 0 then offset - 1 else offset)
          = some proj →
        lvl.downsamplers.get? (if lvl.scalesStart = 0 then offset - 1 else offset)
          = some dspec →
        x.get? (lvl.scalesStart + offset - 1) = some xm →
        peStep lvl x (some t) offset = some
          (PT.blockApp bspec.1 bspec.2
            (PT.aggInApp a.1 a.2
              (PT.downApp dspec.1 dspec.2.1 dspec.2.2 (projApply proj xm)) t))) ∧
    (∀ (lvl : PELevel) (x : List PT) (t : PT) (offset : Nat),
        (lvl.scalesStart + offset = 0 ∨ lvl.scalesStart + offset < x.length) →
        peStep lvl x (some t) offset = peStep lvl x none offset) := by
  constructor
  · intro lvl x t offset a bspec proj dspec xm ha hb h0 hlen hp hd hxm
    simp only [List.get?_eq_getElem?] at hb hp hd hxm
    simp [peStep, hb, h0, hlen, hp, hd, hxm, ha]
  · intro lvl x t offset h
    by_cases h0 : lvl.scalesStart + offset = 0
    · simp [peStep, h0]
    · rcases h with h | hlt
      · exact absurd h h0
      · simp [peStep, h0, hlt]

lemma getElem?_range'_eq (s n m : Nat) (h : m < n) :
    (List.range' s n)[m]? = some (s + m) := by
  rw [List.getElem?_eq_getElem (by simpa using h)]
  simp [List.getElem_range']

lemma getElem?_isSome_of_lt {α : Type} (l : List α) (n : Nat) (h : n < l.length) :
    ∃ v, l[n]? = some v :=
  ⟨l.get ⟨n, h⟩, by simp [List.getElem?_eq_getElem h]⟩

lemma mapM_isSome {α β : Type} (f : α → Option β) :
    ∀ (l : List α), (∀ a ∈ l, (f a).isSome) →
      ∃ r, l.mapM f = some r ∧ r.length = l.length := by
  intro l
  induction l with
  | nil => exact fun _ => ⟨[], rfl, rfl⟩
  | cons a l ih =>
    intro h
    obtain ⟨b, hb⟩ := Option.isSome_iff_exists.mp (h a (by simp))
    obtain ⟨r, hr, hlen⟩ := ih (fun a ha => h a (by simp [ha]))
    exact ⟨b :: r, by rw [List.mapM_cons, hb, hr]; rfl, by simp [hlen]⟩

lemma filter_ne_range'_pos (s k : Nat) (hs : s ≠ 0) :
    (List.range' s k).filter (fun i => decide (i ≠ 0)) = List.range' s k := by
  apply List.filter_eq_self.mpr
  intro a ha
  have h := List.mem_range'_1.mp ha
  simp only [decide_eq_true_eq]
  omega

lemma filter_ne_range'_zero (k : Nat) :
    (List.range' 0 (k + 1)).filter (fun i => decide (i ≠ 0)) = List.range' 1 k := by
  rw [show List.range' 0 (k + 1) = 0 :: List.range' 1 k from rfl]
  rw [List.filter_cons]
  simp [filter_ne_range'_pos 1 k (by omega)]
  intro a h1 _
  omega

/-- Success of one `ParallelEncoderLevel.forward` iteration (without late
injection) once every list access it performs is in range. -/
lemma peStep_isSome (lvl : PELevel) (x : List PT) (offset : Nat)
    (hb : offset < lvl.blocks.length)
    (h0 : lvl.scalesStart + offset = 0 → 0 < x.length)
    (hp : lvl.scalesStart + offset ≠ 0 →
      (if lvl.scalesStart = 0 then offset - 1 else offset) < lvl.projections.length)
    (hdn : lvl.scalesStart + offset ≠ 0 →
      (if lvl.scalesStart = 0 then offset - 1 else offset) < lvl.downsamplers.length)
    (hag : lvl.scalesStart + offset ≠ 0 → lvl.scalesStart + offset < x.length →
      (if lvl.scalesStart = 0 then offset - 1 else offset) < lvl.aggregators.length)
    (hxm : lvl.scalesStart + offset ≠ 0 → lvl.scalesStart + offset - 1 < x.length) :
    (peStep lvl x none offset).isSome := by
  obtain ⟨bspec, hbs⟩ := getElem?_isSome_of_lt _ _ hb
  by_cases hz : lvl.scalesStart + offset = 0
  · obtain ⟨t, ht⟩ := getElem?_isSome_of_lt x 0 (h0 hz)
    simp only [peStep, List.get?_eq_getElem?]
    simp [hz, hbs, ht]
  · obtain ⟨proj, hpr⟩ := getElem?_isSome_of_lt _ _ (hp hz)
    obtain ⟨dspec, hds⟩ := getElem?_isSome_of_lt _ _ (hdn hz)
    obtain ⟨xm, hx1⟩ := getElem?_isSome_of_lt x _ (hxm hz)
    by_cases hlt : lvl.scalesStart + offset < x.length
    · obtain ⟨agg, hga⟩ := getElem?_isSome_of_lt _ _ (hag hz hlt)
      obtain ⟨xc, hx2⟩ := getElem?_isSome_of_lt x _ hlt
      simp only [peStep, List.get?_eq_getElem?]
      simp [hz, hlt, hbs, hpr, hds, hga, hx1, hx2]
    · simp only [peStep, List.get?_eq_getElem?]
      simp [hz, hlt, hbs, hpr, hds, hx1]

/-- The level record `ParallelEncoderLevel.__init__` produces when the
validity check passes and no input aggregator factory is supplied (the
success branch of `peLevelInit`). -/
def peLevelRecord (channels scales : List Nat) (level_index depth : Nat) : PELevel :=
  let scales_start := level_index + 1 - depth
  let scales_end := min (level_index + 1) channels.length
  let idxs := List.range' scales_start (scales_end - scales_start)
  let nz := idxs.filter (fun i => i ≠ 0)
  ⟨scales_start, level_index, depth,
   nz.map (fun i =>
     if channels.getD (i - 1) 0 ≠ channels.getD i 0 then
       ProjMod.conv (channels.getD (i - 1) 0) (channels.getD i 0)
     else ProjMod.id),
   nz.map (fun i =>
     (channels.getD i 0, channels.getD i 0, scales.getD i 0 / scales.getD (i - 1) 0)),
   nz.map (fun i => ([channels.getD i 0, channels.getD i 0], channels.getD i 0)),
   idxs.map (fun i => (channels.getD i 0, channels.getD i 0)),
   none⟩

lemma peLevelInit_ok (channels scales : List Nat) (li d : Nat)
    (hge : ¬ li ≥ d + scales.length) :
    peLevelInit channels scales li d false
      = Except.ok (peLevelRecord channels scales li d) := by
  simp [peLevelInit, peLevelRecord, if_neg hge]

lemma peLevelRecord_nzlen (c : List Nat) (li d : Nat) :
    ((List.range' (li + 1 - d) (min (li + 1) c.length - (li + 1 - d))).filter
        (fun i => decide (i ≠ 0))).length
      = if li + 1 - d = 0 then min (li + 1) c.length - 1
        else min (li + 1) c.length - (li + 1 - d) := by
  by_cases hss0 : li + 1 - d = 0
  · by_cases hse0 : min (li + 1) c.length = 0
    · simp [hss0, hse0]
    · obtain ⟨m, hm⟩ : ∃ m, min (li + 1) c.length = m + 1 :=
        ⟨min (li + 1) c.length - 1, by omega⟩
      rw [hss0, hm]
      simp only [Nat.sub_zero]
      rw [filter_ne_range'_zero m]
      simp
  · rw [filter_ne_range'_pos _ _ hss0]
    simp [hss0]

lemma peLevelRecord_proj_length (c s : List Nat) (li d : Nat) :
    (peLevelRecord c s li d).projections.length
      = if li + 1 - d = 0 then min (li + 1) c.length - 1
        else min (li + 1) c.length - (li + 1 - d) := by
  simp only [peLevelRecord, List.length_map]
  exact peLevelRecord_nzlen c li d

lemma peLevelRecord_down_length (c s : List Nat) (li d : Nat) :
    (peLevelRecord c s li d).downsamplers.length
      = if li + 1 - d = 0 then min (li + 1) c.length - 1
        else min (li + 1) c.length - (li + 1 - d) := by
  simp only [peLevelRecord, List.length_map]
  exact peLevelRecord_nzlen c li d

lemma peLevelRecord_agg_length (c s : List Nat) (li d : Nat) :
    (peLevelRecord c s li d).aggregators.length
      = if li + 1 - d = 0 then min (li + 1) c.length - 1
        else min (li + 1) c.length - (li + 1 - d) := by
  simp only [peLevelRecord, List.length_map]
  exact peLevelRecord_nzlen c li d

lemma peLevelRecord_blocks_length (c s : List Nat) (li d : Nat) :
    (peLevelRecord c s li d).blocks.length
      = min (li + 1) c.length - (li + 1 - d) := by
  simp [peLevelRecord]

/-- The forward pass of a valid level succeeds, its output covers
`min (level_index + 1, n_stages)` scales, and the leading
`max(0, level_index - depth + 1)` entries are the input tensors unchanged. -/
lemma peForward_record_ok (channels scales : List Nat) (li d : Nat) (x : List PT)
    (hlen : channels.length = scales.length)
    (hd : 1 ≤ d) (hli : 1 ≤ li) (hlt : li < d + scales.length)
    (hx : x.length = min li scales.length) :
    ∃ out, peForward (peLevelRecord channels scales li d) x none = some out ∧
      out.length = min (li + 1) scales.length ∧
      out.take (li + 1 - d) = x.take (li + 1 - d) := by
  have hK := peLevelRecord_blocks_length channels scales li d
  have hsteps : ∀ a ∈ List.range (peLevelRecord channels scales li d).blocks.length,
      (peStep (peLevelRecord channels scales li d) x none a).isSome := by
    intro offset hmem
    have hoff : offset < (peLevelRecord channels scales li d).blocks.length :=
      List.mem_range.mp hmem
    rw [hK] at hoff
    apply peStep_isSome
    · rw [hK]
      exact hoff
    · intro hz
      have hz' : li + 1 - d + offset = 0 := hz
      rw [hx]
      omega
    · intro hz
      have hz' : li + 1 - d + offset ≠ 0 := hz
      rw [peLevelRecord_proj_length]
      show (if li + 1 - d = 0 then offset - 1 else offset) < _
      by_cases hss0 : li + 1 - d = 0 <;> simp [hss0] <;> omega
    · intro hz
      have hz' : li + 1 - d + offset ≠ 0 := hz
      rw [peLevelRecord_down_length]
      show (if li + 1 - d = 0 then offset - 1 else offset) < _
      by_cases hss0 : li + 1 - d = 0 <;> simp [hss0] <;> omega
    · intro hz hlt2
      have hz' : li + 1 - d + offset ≠ 0 := hz
      rw [peLevelRecord_agg_length]
      show (if li + 1 - d = 0 then offset - 1 else offset) < _
      by_cases hss0 : li + 1 - d = 0 <;> simp [hss0] <;> omega
    · intro hz
      have hz' : li + 1 - d + offset ≠ 0 := hz
      show li + 1 - d + offset - 1 < x.length
      rw [hx]
      omega
  obtain ⟨r, hr, hrl⟩ := mapM_isSome _ _ hsteps
  have h1 : (x.take (li + 1 - d)).length = li + 1 - d := by
    rw [List.length_take, hx]
    omega
  refine ⟨x.take (li + 1 - d) ++ r, ?_, ?_, ?_⟩
  · simp only [peForward]
    rw [hr]
    rfl
  · rw [List.length_append, h1, hrl, List.length_range, hK]
    omega
  · exact List.take_left' h1

/-- The level built by `ParallelEncoderLevel(channels=[2,4,8,16],
scales=[1,4,16,32], level_index=2, depth=4)`, the configuration of the
spec's example (and of `test_parallel_encoder_stage`). -/
def peLvlC7 : PELevel :=
  ⟨0, 2, 4, [ProjMod.conv 2 4, ProjMod.conv 4 8], [(4, 4, 4), (8, 8, 4)],
   [([4, 4], 4), ([8, 8], 8)], [(2, 2), (4, 4), (8, 8)], none⟩

/-- The output of `peLvlC7.forward` on two upstream tensors. -/
def peOutC7 : List PT :=
  [PT.blockApp 2 2 (PT.inp 0),
   PT.blockApp 4 4 (PT.aggApp [4, 4] 4
     (PT.downApp 4 4 4 (PT.projApp 2 4 (PT.inp 0))) (PT.inp 1)),
   PT.blockApp 8 8 (PT.downApp 8 8 4 (PT.projApp 4 8 (PT.inp 1)))]

/-- C7: for every valid level (with the incoming list covering
`min(level_index, n_stages)` scales, as the enclosing `ParallelEncoder`
supplies), forward succeeds, returns an ordered list of
`min(level_index + 1, n_stages)` per-scale tensors whose first
`max(0, level_index - depth + 1)` entries are the corresponding input
tensors unchanged, and the level processes exactly the
`min(level_index + 1, n_stages) - max(0, level_index - depth + 1)` scale
indices of the band starting at `max(0, level_index - depth + 1)`; in
particular, for `level_index = 2`, `depth = 4` and input shapes
`(2,2,64,64)` and `(2,4,16,16)` it returns exactly 3 tensors of shapes
`(2,2,64,64)`, `(2,4,16,16)` and `(2,8,4,4)`. -/
theorem peForward_spec (channels scales : List Nat) (li d : Nat)
    (lvl : PELevel) (x : List PT)
    (hlen : channels.length = scales.length)
    (hd : 1 ≤ d) (hli : 1 ≤ li)
    (hinit : peLevelInit channels scales li d false = Except.ok lvl)
    (hx : x.length = min li scales.length) :
    (∃ out, peForward lvl x none = some out ∧
        out.length = min (li + 1) scales.length ∧
        out.take (li + 1 - d) = x.take (li + 1 - d)) ∧
    lvl.scalesStart = li + 1 - d ∧
    lvl.blocks.length = min (li + 1) scales.length - (li + 1 - d) ∧
    (peLevelInit [2, 4, 8, 16] [1, 4, 16, 32] 2 4 false = Except.ok peLvlC7 ∧
     peForward peLvlC7 [PT.inp 0, PT.inp 1] none = some peOutC7 ∧
     peOutC7.map (evalShape [⟨2, 2, 64, 64⟩, ⟨2, 4, 16, 16⟩] none)
       = [some ⟨2, 2, 64, 64⟩, some ⟨2, 4, 16, 16⟩, some ⟨2, 8, 4, 4⟩]) := by
  have hge : ¬ li ≥ d + scales.length := by
    intro hge
    rw [show peLevelInit channels scales li d false = Except.error CfgErr.valueError from by
      simp [peLevelInit, if_pos hge]] at hinit
    exact Except.noConfusion hinit
  have hlv : lvl = peLevelRecord channels scales li d := by
    rw [peLevelInit_ok channels scales li d hge] at hinit
    exact (Except.ok.inj hinit).symm
  subst hlv
  refine ⟨peForward_record_ok channels scales li d x hlen hd hli (by omega) hx,
    rfl, ?_, rfl, rfl, by decide⟩
  rw [peLevelRecord_blocks_length, hlen]

/-- Witness for C7 at the spec example: `channels=[2,4,8,16]`,
`scales=[1,4,16,32]`, `level_index=2`, `depth=4`, two input tensors. -/
theorem peForward_spec_witness :
    (∃ out, peForward peLvlC7 [PT.inp 0, PT.inp 1] none = some out ∧
        out.length = min (2 + 1) [1, 4, 16, 32].length ∧
        out.take (2 + 1 - 4) = [PT.inp 0, PT.inp 1].take (2 + 1 - 4)) ∧
    peLvlC7.scalesStart = 2 + 1 - 4 ∧
    peLvlC7.blocks.length = min (2 + 1) [1, 4, 16, 32].length - (2 + 1 - 4) ∧
    (peLevelInit [2, 4, 8, 16] [1, 4, 16, 32] 2 4 false = Except.ok peLvlC7 ∧
     peForward peLvlC7 [PT.inp 0, PT.inp 1] none = some peOutC7 ∧
     peOutC7.map (evalShape [⟨2, 2, 64, 64⟩, ⟨2, 4, 16, 16⟩] none)
       = [some ⟨2, 2, 64, 64⟩, some ⟨2, 4, 16, 16⟩, some ⟨2, 8, 4, 4⟩]) :=
  peForward_spec [2, 4, 8, 16] [1, 4, 16, 32] 2 4 peLvlC7
    [PT.inp 0, PT.inp 1] rfl (by decide) (by decide) rfl rfl

/-- Witness for the amended C8 theorem, applying both parts at the concrete
level `peLvlC8`: the newly-opened scale receives the injection inside the
block input, and a covered scale ignores the injected tensor. -/
theorem peStep_lateInjection_witness :
    peStep peLvlC8 [PT.inp 0] (some PT.xin) 0 = some
      (PT.blockApp 4 4
        (PT.aggInApp [4, 4] 4
          (PT.downApp 4 4 2 (projApply (ProjMod.conv 2 4) (PT.inp 0)))
          PT.xin)) ∧
    peStep peLvlC8 [PT.inp 0, PT.inp 1] (some PT.xin) 0
      = peStep peLvlC8 [PT.inp 0, PT.inp 1] none 0 :=
  ⟨peStep_lateInjection.1 peLvlC8 [PT.inp 0] PT.xin 0 ([4, 4], 4) (4, 4)
      (ProjMod.conv 2 4) (4, 4, 2) (PT.inp 0) rfl rfl (by decide) (by decide)
      rfl rfl rfl,
   peStep_lateInjection.2 peLvlC8 [PT.inp 0, PT.inp 1] PT.xin 0
      (Or.inr (by decide))⟩

/-! ## `DenseCascadingEncoder.__init__`

Embedding of the construction of `DenseCascadingEncoder` (encoders.py,
lines 976-1169): the list-length validations, and the per-stage loop
(lines 1074-1155) with its divisibility check (line 1078) and block
construction (lines 1108-1151).  `Modelled from the spec:` the `StageConfig`
conversion of lines 1052-1060 refers to a class defined nowhere in the
repository; per the spec (§3, "Stage: owns a channel count, a depth (number
of internal blocks)"), a stage specification given as an integer carries
that integer as its block count (`n_blocks`), with no extra block
arguments. -/

/-- Construction-time errors including the integer division by zero that
Python raises for `channels_out % 0` (a zero-block stage). -/
inductive DenseErr where
  | valueError
  | zeroDivisionError
  deriving DecidableEq, Repr

/-- The number of input channels of the block at position `b` of stage
`ind` (lines 1085-1092, 1110-1132): the dense growth-rate accumulation plus
the cross-stage coupling terms. -/
def denseChansCombined (channels stage_ns : List Nat) (ind n ch b : Nat) : Nat :=
  let n_stages := stage_ns.length
  let growth_rate := ch / n
  let channels_in :=
    if ind = 0 then growth_rate
    else
      let np := stage_ns.getD (ind - 1) 0
      if np = 1 then channels.getD (ind - 1) 0
      else channels.getD (ind - 1) 0 / np
  channels_in + b * growth_rate
    + (if ind < n_stages - 1 ∧ 1 < b ∧ b < stage_ns.getD (ind + 1) 0 + 1 then
        (if stage_ns.getD (ind + 1) 0 < b then channels.getD (ind + 1) 0
         else channels.getD (ind + 1) 0 / stage_ns.getD (ind + 1) 0)
      else 0)
    + (if 0 < ind ∧ 0 < b ∧ b < stage_ns.getD (ind - 1) 0 then
        (if stage_ns.getD (ind - 1) 0 - 2 < b then channels.getD (ind - 1) 0
         else channels.getD (ind - 1) 0 / stage_ns.getD (ind - 1) 0)
      else 0)

/-- The blocks built for one stage (lines 1108-1151): one
`(stage_index, channels_in, channels_out)` triple per block; every block
outputs `growth_rate` channels except the last, which outputs the stage's
full channel count. -/
def denseStageBlocks (channels stage_ns : List Nat) (ind n ch : Nat) :
    List (Nat × Nat × Nat) :=
  (List.range n).map (fun b =>
    (ind, denseChansCombined channels stage_ns ind n ch b,
     if b < n - 1 then ch / n else ch))

/-- The per-stage loop of `DenseCascadingEncoder.__init__`
(lines 1074-1155) over the zipped `(n_blocks, channels_out)` pairs,
carrying the stage index and the number of blocks built so far.  A failed
divisibility check (line 1078) aborts with the count of blocks already
built; a zero-block stage is Python's `ZeroDivisionError`. -/
def denseLoopGo (channels stage_ns : List Nat) :
    List (Nat × Nat) → Nat → Nat → Except (DenseErr × Nat) (List (Nat × Nat × Nat))
  | [], _, _ => .ok []
  | (n, ch) :: rest, ind, built =>
    if n = 0 then .error (.zeroDivisionError, built)
    else if ch % n > 0 then .error (.valueError, built)
    else
      match denseLoopGo channels stage_ns rest (ind + 1) (built + n) with
      | .error e => .error e
      | .ok specs => .ok (denseStageBlocks channels stage_ns ind n ch ++ specs)

/-- The validations and stage loop of `DenseCascadingEncoder.__init__`
(lines 1014-1155) for an explicit channel list: length checks
(lines 1031-1042), then the per-stage divisibility check and block
construction.  Errors carry the number of blocks built before the raise. -/
def denseCascadingInitCheck (channels stage_ns : List Nat)
    (downsampling_factors : Option (List Nat)) :
    Except (DenseErr × Nat) (List (Nat × Nat × Nat)) :=
  let n_stages := stage_ns.length
  if channels.length = n_stages then
    let factors := downsampling_factors.getD (List.replicate (n_stages - 1) 2)
    if stage_ns.length = factors.length + 1 then
      denseLoopGo channels stage_ns (stage_ns.zip channels) 0 0
    else .error (.valueError, 0)
  else .error (.valueError, 0)

/-- Counterexample to C9 as stated: for channels `[2, 3]` and stage block
counts `[1, 2]`, stage 1's channel count 3 is not divisible by its block
count 2, and construction does fail with the configuration error — but only
after the single block of stage 0 has already been built (1 block, not 0),
so the failure is not "before any block is built". -/
theorem denseCascadingInit_counterexample :
    denseCascadingInitCheck [2, 3] [1, 2] none
      = Except.error (DenseErr.valueError, 1) ∧ (1 : Nat) ≠ 0 :=
  ⟨rfl, by decide⟩

lemma denseLoopGo_error (channels stage_ns : List Nat) :
    ∀ (l : List (Nat × Nat)) (ind built i : Nat),
      (∀ p ∈ l, 1 ≤ p.1) → i < l.length →
      (∀ j, j < i → (l.getD j (0, 0)).2 % (l.getD j (0, 0)).1 = 0) →
      0 < (l.getD i (0, 0)).2 % (l.getD i (0, 0)).1 →
      denseLoopGo channels stage_ns l ind built
        = .error (.valueError, built + ((l.take i).map Prod.fst).sum) := by
  intro l
  induction l with
  | nil => intro ind built i _ hi; simp at hi
  | cons p rest ih =>
    intro ind built i hpos hi hdiv hbad
    obtain ⟨n, ch⟩ := p
    have hn : 1 ≤ n := hpos (n, ch) (by simp)
    match i with
    | 0 =>
      simp only [List.getD_cons_zero] at hbad
      rw [denseLoopGo]
      rw [if_neg (by omega), if_pos (by omega)]
      simp
    | Nat.succ j =>
      have hok : ch % n = 0 := by
        have := hdiv 0 (by omega)
        simpa using this
      rw [denseLoopGo, if_neg (by omega), if_neg (by omega)]
      have hrec := ih (ind + 1) (built + n) j
        (fun q hq => hpos q (by simp [hq]))
        (by simpa using hi)
        (fun k hk => by simpa using hdiv (k + 1) (by omega))
        (by simpa using hbad)
      rw [hrec]
      simp
      omega

lemma denseLoopGo_ok (channels stage_ns : List Nat) :
    ∀ (l : List (Nat × Nat)) (ind built : Nat),
      (∀ j, j < l.length →
        1 ≤ (l.getD j (0, 0)).1 ∧ (l.getD j (0, 0)).2 % (l.getD j (0, 0)).1 = 0) →
      ∃ specs, denseLoopGo channels stage_ns l ind built = .ok specs := by
  intro l
  induction l with
  | nil => intro ind built _; exact ⟨[], rfl⟩
  | cons p rest ih =>
    intro ind built h
    obtain ⟨n, ch⟩ := p
    obtain ⟨hn, hdiv⟩ : 1 ≤ n ∧ ch % n = 0 := by simpa using h 0 (by simp)
    obtain ⟨specs, hspecs⟩ := ih (ind + 1) (built + n)
      (fun j hj => by simpa using h (j + 1) (by simpa using hj))
    refine ⟨denseStageBlocks channels stage_ns ind n ch ++ specs, ?_⟩
    simp only [denseLoopGo]
    rw [if_neg (by omega), if_neg (by omega), hspecs]

lemma zip_getD (a b : List Nat) :
    ∀ j, j < a.length → j < b.length →
      (a.zip b).getD j (0, 0) = (a.getD j 0, b.getD j 0) := by
  induction a generalizing b with
  | nil => intro j hj _; simp at hj
  | cons x xs ih =>
    intro j hj hb
    cases b with
    | nil => simp at hb
    | cons y ys =>
      match j with
      | 0 => simp
      | Nat.succ k =>
        simp only [List.zip_cons_cons, List.getD_cons_succ]
        exact ih ys k (by simpa using hj) (by simpa using hb)

/-- C9 (amended): with every stage having at least one block,
`DenseCascadingEncoder` construction fails with a configuration error at the
first stage whose output channel count is not divisible by its block count —
after the blocks of all earlier stages have been built (their count is
carried by the error) and before any block of the failing or later stages —
and succeeds when every stage's channel count is divisible by its block
count. -/
theorem denseCascadingInit_divisibility (channels stage_ns : List Nat)
    (hlen : channels.length = stage_ns.length)
    (hpos : ∀ k ∈ stage_ns, 1 ≤ k) :
    (∀ i, i < stage_ns.length →
      (∀ j, j < i → channels.getD j 0 % stage_ns.getD j 0 = 0) →
      0 < channels.getD i 0 % stage_ns.getD i 0 →
      denseCascadingInitCheck channels stage_ns none
        = Except.error (DenseErr.valueError, (stage_ns.take i).sum)) ∧
    ((∀ j, j < stage_ns.length → channels.getD j 0 % stage_ns.getD j 0 = 0) →
      stage_ns ≠ [] →
      ∃ specs, denseCascadingInitCheck channels stage_ns none
        = Except.ok specs) := by
  have hzlen : (stage_ns.zip channels).length = stage_ns.length := by
    rw [List.length_zip]
    omega
  have hget : ∀ j, j < stage_ns.length →
      ((stage_ns.zip channels).getD j (0, 0))
        = (stage_ns.getD j 0, channels.getD j 0) :=
    fun j hj => zip_getD stage_ns channels j hj (by omega)
  have hzpos : ∀ p ∈ stage_ns.zip channels, 1 ≤ p.1 := by
    intro p hp
    exact hpos p.1 (List.of_mem_zip hp).1
  constructor
  · intro i hi hdiv hbad
    have hsum : (((stage_ns.zip channels).take i).map Prod.fst).sum
        = (stage_ns.take i).sum := by
      rw [List.map_take, List.map_fst_zip stage_ns channels (by omega)]
    have hrun := denseLoopGo_error channels stage_ns (stage_ns.zip channels) 0 0 i
      hzpos (by omega)
      (fun j hj => by rw [hget j (by omega)]; exact hdiv j hj)
      (by rw [hget i hi]; exact hbad)
    have hne : 1 ≤ stage_ns.length := by omega
    simp only [denseCascadingInitCheck]
    rw [if_pos hlen, if_pos (by simp; omega)]
    rw [hrun, hsum]
    simp
  · intro hdiv hne
    have hne' : 1 ≤ stage_ns.length := List.length_pos.mpr hne
    obtain ⟨specs, hspecs⟩ := denseLoopGo_ok channels stage_ns
      (stage_ns.zip channels) 0 0 (by
        intro j hj
        rw [hzlen] at hj
        rw [hget j hj]
        refine ⟨?_, hdiv j hj⟩
        have hmem : stage_ns.getD j 0 ∈ stage_ns := by
          rw [List.getD_eq_getElem?_getD, List.getElem?_eq_getElem hj]
          exact List.getElem_mem hj
        exact hpos _ hmem)
    refine ⟨specs, ?_⟩
    simp only [denseCascadingInitCheck]
    rw [if_pos hlen, if_pos (by simp; omega)]
    exact hspecs

/-- Witness for the amended C9 theorem: the failing construction
`DenseCascadingEncoder([2,3], [1,2])` errors with one block already built,
and `DenseCascadingEncoder([32,64,128], [4,4,4])` (the test configuration,
all channel counts divisible) passes the check. -/
theorem denseCascadingInit_divisibility_witness :
    denseCascadingInitCheck [2, 3] [1, 2] none
      = Except.error (DenseErr.valueError, ([1, 2].take 1).sum) ∧
    ∃ specs, denseCascadingInitCheck [32, 64, 128] [4, 4, 4] none
      = Except.ok specs :=
  ⟨(denseCascadingInit_divisibility [2, 3] [1, 2] rfl (by decide)).1 1
      (by decide)
      (fun j hj => by
        have h0 : j = 0 := by omega
        subst h0
        decide)
      (by decide),
   (denseCascadingInit_divisibility [32, 64, 128] [4, 4, 4] rfl (by decide)).2
      (fun j hj => by
        have h3 : j < 3 := by simpa using hj
        interval_cases j <;> decide)
      (by decide)⟩

/-! ## `CascadingEncoder`: module map and wave execution

Embedding of the block bucketing of `CascadingEncoder.__init__`
(encoders.py, lines 869-921) and of `CascadingEncoder.forward`
(lines 932-972).  `Modelled from the spec:` the constructor's body reads
`stages` where its parameter is `stage_depths`, and converts entries through
the `StageConfig` class, which is defined nowhere in the repository; per the
spec (§3, a stage "owns … a depth (number of internal blocks)") the stage
list is the `stage_depths` argument and an integer entry carries its block
count, so `stages[i].n_blocks = stage_depths[i]`. -/

/-- Symbolic tensors of a cascading forward pass. -/
inductive CT where
  /-- the input tensor `x` -/
  | inp
  /-- `self.stem(x)` -/
  | stemT (t : CT)
  /-- `self.downsamplers[s]` applied (line 957-958) -/
  | downT (s : Nat) (t : CT)
  /-- `self.upsamplers[s]` applied (line 964-965) -/
  | upT (s : Nat) (t : CT)
  /-- the block at (stage `s`, position `b`) applied to
  `torch.cat(ins, 1)` (line 967) -/
  | blockT (s b : Nat) (ins : List CT)
  deriving Repr

/-- All `(stage_index, block_index)` pairs, in construction order
(lines 869-910: outer loop over stages, inner loop over
`range(stage.n_blocks)`). -/
def allBlocks (stage_ns : List Nat) : List (Nat × Nat) :=
  stage_ns.enum.flatMap (fun p => (List.range p.2).map (fun b => (p.1, b)))

/-- The module-map bucket at depth key `dk` (line 907:
`module_map.setdefault(block_ind + stage_ind, []).append((stage_ind, mod))`):
the blocks with `stage_ind + block_ind = dk`, in construction order. -/
def bucket (stage_ns : List Nat) (dk : Nat) : List (Nat × Nat) :=
  (allBlocks stage_ns).filter (fun p => p.1 + p.2 = dk)

/-- Whether `dk` is a key of the module map (`self.module_map[d_i]` at
line 952 raises `KeyError` otherwise). -/
def keyPresent (stage_ns : List Nat) (dk : Nat) : Bool :=
  (allBlocks stage_ns).any (fun p => p.1 + p.2 = dk)

/-- `self.depth = max(list(self.module_map.keys())) + 1` (line 921). -/
def cascDepth (stage_ns : List Nat) : Nat :=
  ((allBlocks stage_ns).map (fun p => p.1 + p.2)).foldr max 0 + 1

/-- The input collection of one block execution (lines 954-965): the
downsampled previous-stage tensor, the same-stage tensor, and the upsampled
next-stage tensor, each included exactly when the corresponding stage index
is a key of the previous wave's lookup `x_in` (stage 0 has no previous
stage: `stage_ind - 1` is `-1` in Python and never a key, hence the explicit
guard). -/
def collectInputs (x_in : List (Nat × CT)) (s : Nat) : List CT :=
  (if s = 0 then []
   else
     match x_in.lookup (s - 1) with
     | some t => [CT.downT s t]
     | none => []) ++
  (match x_in.lookup s with
   | some t => [t]
   | none => []) ++
  (match x_in.lookup (s + 1) with
   | some t => [CT.upT (s + 1) t]
   | none => [])

/-- One wave of the forward pass (lines 951-967): every block bucketed at
depth key `d` executes, reading only `x_in`, the previous wave's outputs. -/
def waveStep (stage_ns : List Nat) (d : Nat) (x_in : List (Nat × CT)) :
    List (Nat × CT) :=
  (bucket stage_ns d).map
    (fun p => (p.1, CT.blockT p.1 p.2 (collectInputs x_in p.1)))

/-- The `x_in` lookup at the start of wave `d` (`x_in = y` at line 969). -/
def waveMap (stage_ns : List Nat) (x0 : List (Nat × CT)) : Nat → List (Nat × CT)
  | 0 => x0
  | d + 1 => waveStep stage_ns d (waveMap stage_ns x0 d)

/-- `results.update(y)` for one entry: Python dict update (replace an
existing key in place, append a new one). -/
def dictUpdate (res : List (Nat × CT)) (p : Nat × CT) : List (Nat × CT) :=
  if res.any (fun q => q.1 = p.1) then
    res.map (fun q => if q.1 = p.1 then (q.1, p.2) else q)
  else res ++ [p]

/-- The wave loop of `forward` (lines 949-970): waves `0 .. n-1`, each
requiring its depth key to be present in the module map (`KeyError`
otherwise) and accumulating `results.update(y)`. -/
def cascLoop (stage_ns : List Nat) (x0 : List (Nat × CT)) :
    Nat → Option (List (Nat × CT) × List (Nat × CT))
  | 0 => some (x0, [])
  | n + 1 =>
    match cascLoop stage_ns x0 n with
    | none => none
    | some (x_in, results) =>
      if keyPresent stage_ns n then
        let y := waveStep stage_ns n x_in
        some (y, y.foldl dictUpdate results)
      else none

/-- The wave-0 seed (lines 942-945): the stemmed input at stage 0. -/
def cascStem (hasStem : Bool) : CT := if hasStem then CT.stemT CT.inp else CT.inp

/-- `x_in = {0: self.stem(x)}` (or `{0: x}`). -/
def cascX0 (hasStem : Bool) : List (Nat × CT) := [(0, cascStem hasStem)]

/-- `CascadingEncoder.forward` (lines 932-972), up to the final relabelling
of stage indices by scales: the stage-indexed results mapping. -/
def cascForward (stage_ns : List Nat) (hasStem : Bool) :
    Option (List (Nat × CT)) :=
  match cascLoop stage_ns (cascX0 hasStem) (cascDepth stage_ns) with
  | none => none
  | some (_, results) => some results

lemma getD_mem_of_lt (l : List Nat) (j : Nat) (h : j < l.length) :
    l.getD j 0 ∈ l := by
  rw [List.getD_eq_getElem?_getD, List.getElem?_eq_getElem h]
  exact List.getElem_mem h

lemma le_foldr_max (l : List Nat) : ∀ a ∈ l, a ≤ l.foldr max 0 := by
  induction l with
  | nil => intro a ha; simp at ha
  | cons x xs ih =>
    intro a ha
    rcases List.mem_cons.mp ha with h | h
    · subst h
      exact le_max_left _ _
    · exact le_trans (ih a h) (le_max_right _ _)

lemma foldr_max_mem (l : List Nat) (h : l ≠ []) : l.foldr max 0 ∈ l := by
  induction l with
  | nil => exact absurd rfl h
  | cons x xs ih =>
    by_cases hxs : xs = []
    · subst hxs
      simp
    · have hmem := ih hxs
      simp only [List.foldr_cons]
      rcases Nat.le_total (xs.foldr max 0) x with hle | hle
      · rw [Nat.max_eq_left hle]
        exact List.mem_cons_self x xs
      · rw [Nat.max_eq_right hle]
        exact List.mem_cons_of_mem _ hmem

lemma mem_allBlocks (stage_ns : List Nat) (s b : Nat) :
    (s, b) ∈ allBlocks stage_ns ↔
      s < stage_ns.length ∧ b < stage_ns.getD s 0 := by
  constructor
  · intro h
    obtain ⟨p, hp, hmem⟩ := List.mem_flatMap.mp h
    obtain ⟨bv, hbv, heq⟩ := List.mem_map.mp hmem
    obtain ⟨h1, h2⟩ := Prod.mk.injEq _ _ _ _ |>.mp heq
    have hg := List.mem_enum_iff_get?.mp hp
    have hlt : p.1 < stage_ns.length := by
      rcases List.get?_eq_some.mp hg with ⟨hl, _⟩
      exact hl
    constructor
    · rw [← h1]
      exact hlt
    · rw [← h1, ← h2]
      have hgd : stage_ns.getD p.1 0 = p.2 := by
        rw [List.getD_eq_getElem?_getD, ← List.get?_eq_getElem?, hg]
        rfl
      rw [hgd]
      exact List.mem_range.mp hbv
  · intro h
    obtain ⟨h1, h2⟩ := h
    apply List.mem_flatMap.mpr
    refine ⟨(s, stage_ns.getD s 0), ?_, ?_⟩
    · apply List.mem_enum_iff_get?.mpr
      show stage_ns.get? s = some (stage_ns.getD s 0)
      rw [List.get?_eq_getElem?, List.getElem?_eq_getElem h1,
        List.getD_eq_getElem?_getD, List.getElem?_eq_getElem h1]
      rfl
    · exact List.mem_map.mpr ⟨b, List.mem_range.mpr h2, rfl⟩

lemma mem_bucket (stage_ns : List Nat) (dk s b : Nat) :
    (s, b) ∈ bucket stage_ns dk ↔
      s < stage_ns.length ∧ b < stage_ns.getD s 0 ∧ s + b = dk := by
  rw [bucket, List.mem_filter, mem_allBlocks]
  simp [and_assoc]

lemma lookup_mem {β : Type} (l : List (Nat × β)) (k : Nat) (v : β)
    (h : l.lookup k = some v) : (k, v) ∈ l := by
  induction l with
  | nil => simp [List.lookup] at h
  | cons p rest ih =>
    obtain ⟨a, bb⟩ := p
    rw [List.lookup] at h
    by_cases hk : k == a
    · rw [hk] at h
      have hka : k = a := by simpa using hk
      simp at h
      subst hka
      rw [h]
      exact List.mem_cons_self _ _
    · rw [Bool.eq_false_iff.mpr hk] at h
      exact List.mem_cons_of_mem _ (ih h)

lemma waveMap_succ_shape (stage_ns : List Nat) (x0 : List (Nat × CT))
    (d s : Nat) (t : CT) (h : (s, t) ∈ waveMap stage_ns x0 (d + 1)) :
    s < stage_ns.length ∧ s ≤ d ∧ d - s < stage_ns.getD s 0 ∧
    t = CT.blockT s (d - s) (collectInputs (waveMap stage_ns x0 d) s) := by
  simp only [waveMap, waveStep] at h
  obtain ⟨p, hp, heq⟩ := List.mem_map.mp h
  obtain ⟨h1, h2⟩ := Prod.mk.injEq _ _ _ _ |>.mp heq
  obtain ⟨hl, hb, hk⟩ := (mem_bucket stage_ns d p.1 p.2).mp (by simpa using hp)
  subst h1
  refine ⟨hl, by omega, ?_, ?_⟩
  · have : d - p.1 = p.2 := by omega
    rw [this]
    exact hb
  · rw [← h2]
    have : d - p.1 = p.2 := by omega
    rw [this]

lemma keyPresent_of_lt (stage_ns : List Nat) (hne : stage_ns ≠ [])
    (hpos : ∀ k ∈ stage_ns, 1 ≤ k) (dk : Nat)
    (hdk : dk < cascDepth stage_ns) :
    keyPresent stage_ns dk = true := by
  have hlen : 0 < stage_ns.length := List.length_pos.mpr hne
  have h00 : (0, 0) ∈ allBlocks stage_ns :=
    (mem_allBlocks stage_ns 0 0).mpr ⟨hlen, hpos _ (getD_mem_of_lt _ _ hlen)⟩
  have hkeysne : ((allBlocks stage_ns).map (fun p => p.1 + p.2)) ≠ [] := by
    intro hc
    have hm := List.mem_map_of_mem (fun p : Nat × Nat => p.1 + p.2) h00
    rw [hc] at hm
    simp at hm
  have hmax := foldr_max_mem _ hkeysne
  obtain ⟨pm, hpm, hpmk⟩ := List.mem_map.mp hmax
  obtain ⟨hs, hb⟩ := (mem_allBlocks stage_ns pm.1 pm.2).mp (by simpa using hpm)
  have hdk' : dk ≤ pm.1 + pm.2 := by
    unfold cascDepth at hdk
    omega
  rcases Nat.le_total pm.1 dk with hcase | hcase
  · have hmem : (pm.1, dk - pm.1) ∈ allBlocks stage_ns :=
      (mem_allBlocks _ _ _).mpr ⟨hs, by omega⟩
    rw [keyPresent, List.any_eq_true]
    exact ⟨(pm.1, dk - pm.1), hmem, by simp; omega⟩
  · have hdklen : dk < stage_ns.length := by omega
    have hmem : (dk, 0) ∈ allBlocks stage_ns :=
      (mem_allBlocks _ _ _).mpr ⟨hdklen, hpos _ (getD_mem_of_lt _ _ hdklen)⟩
    rw [keyPresent, List.any_eq_true]
    exact ⟨(dk, 0), hmem, by simp⟩

lemma cascLoop_eq (stage_ns : List Nat) (x0 : List (Nat × CT)) (N : Nat)
    (hcont : ∀ dk, dk < N → keyPresent stage_ns dk = true) :
    ∀ n, n ≤ N →
      ∃ res, cascLoop stage_ns x0 n = some (waveMap stage_ns x0 n, res) := by
  intro n
  induction n with
  | zero => intro _; exact ⟨[], rfl⟩
  | succ m ih =>
    intro hm
    obtain ⟨res, hres⟩ := ih (by omega)
    refine ⟨(waveStep stage_ns m (waveMap stage_ns x0 m)).foldl dictUpdate res, ?_⟩
    simp only [cascLoop]
    rw [hres]
    simp [hcont m (by omega), waveMap]

/-- C2 (amended): for a cascading encoder whose stages all have at least one
block — the restriction the counterexample `cascadingModuleMap_gap` forces,
since a zero-depth stage can leave a depth key below `self.depth` absent
from the module map and make `forward` raise `KeyError` at that wave —
(i) a block at stage `s`, within-stage position `b`, is bucketed in the
module map exactly under depth key `s + b`; (ii) the encoder depth bounds
every depth key strictly and is attained: it is the maximum key plus one;
(iii) wave 0's lookup holds only the stemmed input at stage 0, wave `d`
executes exactly the blocks bucketed under key `d` reading only the
previous wave's lookup, every wave key `0 ≤ d < depth` is present (no
`KeyError`) and the forward pass succeeds; (iv) each wave-`d` block consumes
only tensors derived from wave-`(d-1)` outputs and never a tensor produced
in wave `d` itself. -/
theorem cascadingModuleMap_spec (stage_ns : List Nat) (hasStem : Bool)
    (hne : stage_ns ≠ []) (hpos : ∀ k ∈ stage_ns, 1 ≤ k) :
    (∀ s b dk, (s, b) ∈ bucket stage_ns dk ↔
      (s < stage_ns.length ∧ b < stage_ns.getD s 0 ∧ s + b = dk)) ∧
    (∀ p ∈ allBlocks stage_ns, p.1 + p.2 < cascDepth stage_ns) ∧
    (∃ p ∈ allBlocks stage_ns, p.1 + p.2 = cascDepth stage_ns - 1) ∧
    (waveMap stage_ns (cascX0 hasStem) 0 = [(0, cascStem hasStem)]) ∧
    (∀ d, waveMap stage_ns (cascX0 hasStem) (d + 1)
        = (bucket stage_ns d).map (fun p =>
            (p.1, CT.blockT p.1 p.2
              (collectInputs (waveMap stage_ns (cascX0 hasStem) d) p.1)))) ∧
    (∀ dk, dk < cascDepth stage_ns → keyPresent stage_ns dk = true) ∧
    (∃ res, cascForward stage_ns hasStem = some res) ∧
    (∀ d s t, (s, t) ∈ waveMap stage_ns (cascX0 hasStem) (d + 1) →
      s ≤ d ∧ t = CT.blockT s (d - s)
        (collectInputs (waveMap stage_ns (cascX0 hasStem) d) s)) ∧
    (∀ d s b, (s, b) ∈ bucket stage_ns d →
      ∀ tin ∈ collectInputs (waveMap stage_ns (cascX0 hasStem) d) s,
      ∀ q ∈ waveMap stage_ns (cascX0 hasStem) (d + 1), tin ≠ q.2) := by
  have hcont := keyPresent_of_lt stage_ns hne hpos
  have hlen : 0 < stage_ns.length := List.length_pos.mpr hne
  have h00 : (0, 0) ∈ allBlocks stage_ns :=
    (mem_allBlocks stage_ns 0 0).mpr ⟨hlen, hpos _ (getD_mem_of_lt _ _ hlen)⟩
  have hkeysne : ((allBlocks stage_ns).map (fun p => p.1 + p.2)) ≠ [] := by
    intro hc
    have hm := List.mem_map_of_mem (fun p : Nat × Nat => p.1 + p.2) h00
    rw [hc] at hm
    simp at hm
  refine ⟨fun s b dk => mem_bucket stage_ns dk s b, ?_, ?_, rfl, fun d => rfl,
    hcont, ?_, ?_, ?_⟩
  · intro p hp
    have h1 : p.1 + p.2
        ≤ ((allBlocks stage_ns).map (fun p => p.1 + p.2)).foldr max 0 :=
      le_foldr_max _ _ (List.mem_map_of_mem (fun p : Nat × Nat => p.1 + p.2) hp)
    unfold cascDepth
    omega
  · have hmax := foldr_max_mem _ hkeysne
    obtain ⟨pm, hpm, hpmk⟩ := List.mem_map.mp hmax
    have hpmk' : pm.1 + pm.2
        = ((allBlocks stage_ns).map (fun p => p.1 + p.2)).foldr max 0 := hpmk
    refine ⟨pm, hpm, ?_⟩
    unfold cascDepth
    omega
  · obtain ⟨res, hres⟩ := cascLoop_eq stage_ns (cascX0 hasStem)
      (cascDepth stage_ns) hcont (cascDepth stage_ns) (le_refl _)
    refine ⟨res, ?_⟩
    rw [cascForward, hres]
  · intro d s t h
    obtain ⟨_, h2, _, h4⟩ := waveMap_succ_shape stage_ns (cascX0 hasStem) d s t h
    exact ⟨h2, h4⟩
  · intro d s b hsb tin htin q hq heqc
    obtain ⟨hq1, hq2, hq3, hq4⟩ := waveMap_succ_shape stage_ns (cascX0 hasStem)
      d q.1 q.2 (by simpa using hq)
    rw [hq4] at heqc
    simp only [collectInputs, List.mem_append] at htin
    rcases htin with (h | h) | h
    · by_cases hs0 : s = 0
      · rw [if_pos hs0] at h
        simp at h
      · rw [if_neg hs0] at h
        rcases hl : (waveMap stage_ns (cascX0 hasStem) d).lookup (s - 1)
            with _ | tp
        · rw [hl] at h
          simp at h
        · rw [hl] at h
          simp at h
          rw [h] at heqc
          simp at heqc
    · rcases hl : (waveMap stage_ns (cascX0 hasStem) d).lookup s with _ | tp
      · rw [hl] at h
        simp at h
      · rw [hl] at h
        simp at h
        rw [h] at heqc
        have hmem := lookup_mem _ _ _ hl
        cases d with
        | zero =>
          simp only [waveMap, cascX0, List.mem_singleton] at hmem
          obtain ⟨hs0, htp⟩ := Prod.mk.injEq _ _ _ _ |>.mp hmem.symm
          rw [← htp] at heqc
          cases hasStem <;> simp [cascStem] at heqc
        | succ e =>
          obtain ⟨he1, he2, he3, he4⟩ := waveMap_succ_shape stage_ns
            (cascX0 hasStem) e s tp hmem
          rw [he4] at heqc
          simp only [CT.blockT.injEq] at heqc
          obtain ⟨hA, hB, _⟩ := heqc
          omega
    · rcases hl : (waveMap stage_ns (cascX0 hasStem) d).lookup (s + 1)
        with _ | tp
      · rw [hl] at h
        simp at h
      · rw [hl] at h
        simp at h
        rw [h] at heqc
        simp at heqc

/-- Witness for C2 at the test configuration `CascadingEncoder` with stage
depths `[3, 3, 3]` and no stem. -/
theorem cascadingModuleMap_spec_witness :
    (∀ s b dk, (s, b) ∈ bucket [3, 3, 3] dk ↔
      (s < [3, 3, 3].length ∧ b < [3, 3, 3].getD s 0 ∧ s + b = dk)) ∧
    (∀ p ∈ allBlocks [3, 3, 3], p.1 + p.2 < cascDepth [3, 3, 3]) ∧
    (∃ p ∈ allBlocks [3, 3, 3], p.1 + p.2 = cascDepth [3, 3, 3] - 1) ∧
    (waveMap [3, 3, 3] (cascX0 false) 0 = [(0, cascStem false)]) ∧
    (∀ d, waveMap [3, 3, 3] (cascX0 false) (d + 1)
        = (bucket [3, 3, 3] d).map (fun p =>
            (p.1, CT.blockT p.1 p.2
              (collectInputs (waveMap [3, 3, 3] (cascX0 false) d) p.1)))) ∧
    (∀ dk, dk < cascDepth [3, 3, 3] → keyPresent [3, 3, 3] dk = true) ∧
    (∃ res, cascForward [3, 3, 3] false = some res) ∧
    (∀ d s t, (s, t) ∈ waveMap [3, 3, 3] (cascX0 false) (d + 1) →
      s ≤ d ∧ t = CT.blockT s (d - s)
        (collectInputs (waveMap [3, 3, 3] (cascX0 false) d) s)) ∧
    (∀ d s b, (s, b) ∈ bucket [3, 3, 3] d →
      ∀ tin ∈ collectInputs (waveMap [3, 3, 3] (cascX0 false) d) s,
      ∀ q ∈ waveMap [3, 3, 3] (cascX0 false) (d + 1), tin ≠ q.2) :=
  cascadingModuleMap_spec [3, 3, 3] false (by decide) (by decide)

/-- Counterexample to C2 as stated: with stage depths `[1, 0, 1]` — a
zero-depth middle stage, which the spec keeps in scope — the module map
holds only the keys 0 (stage 0's block) and 2 (stage 2's block), the
encoder depth is 3, but key 1 is absent, so wave 1 has no bucket and the
forward pass aborts with `KeyError` instead of executing every wave
`0 ≤ d < depth`. -/
theorem cascadingModuleMap_gap :
    bucket [1, 0, 1] 1 = [] ∧
    keyPresent [1, 0, 1] 1 = false ∧
    cascDepth [1, 0, 1] = 3 ∧
    cascForward [1, 0, 1] false = none :=
  ⟨rfl, rfl, rfl, rfl⟩

/-! ## Purity of the forward passes

Every `forward` of the core reads the structural state built at
construction and never assigns an attribute of `self`
(`SpatialEncoder.forward`, lines 254-279; `forward_with_skips`,
lines 234-252; `MultiInputSpatialEncoder.forward`, lines 438-490;
`ParallelEncoderLevel.forward`, lines 665-691; the cascading wave loop,
lines 932-972).  Each forward is therefore embedded with its encoder state
threaded through the call explicitly, so that the absence of mutation and
the determinism of a repeated call are statements, not conventions. -/

/-- `MultiInputSpatialEncoder.forward` with the encoder state threaded
explicitly (the source assigns no attribute of `self`). -/
def miForwardS (enc : MIEncoderState) (x : String → MT) :
    MIEncoderState × Option (Option MT × List MEv) :=
  (enc, miForward enc x)

/-- `ParallelEncoderLevel.forward` with the level state threaded explicitly
(the source assigns no attribute of `self`). -/
def peForwardS (lvl : PELevel) (x : List PT) (xIn : Option PT) :
    PELevel × Option (List PT) :=
  (lvl, peForward lvl x xIn)

/-- The cascading forward pass with its structural configuration (stage
block counts and stem flag, which determine the module map, the wiring and
the wave schedule) threaded explicitly. -/
def cascForwardS (stage_ns : List Nat) (hasStem : Bool) :
    (List Nat × Bool) × Option (List (Nat × CT)) :=
  ((stage_ns, hasStem), cascForward stage_ns hasStem)

/-- C10: every forward pass of the core is a pure function of the
structural state fixed at construction and the input tensors: for the
sequential encoder (with and without skip collection), the multi-input
encoder, the parallel encoder level and the cascading encoder, the
structural state (scales, channels, module handles, wiring maps) comes back
unchanged, and a second call on the state returned by the first call, with
identical inputs and the same deterministic factory-built modules, produces
an identical output. -/
theorem spatialEncoderForward_pure (enc : SpatialEncoderState) (x : ST)
    (mi : MIEncoderState) (mx : String → MT)
    (lvl : PELevel) (px : List PT) (pin : Option PT)
    (cs : List Nat) (hs : Bool) :
    (spatialEncoderForward enc x).1 = enc ∧
    (spatialEncoderForwardWithSkips enc x).1 = enc ∧
    (spatialEncoderForward ((spatialEncoderForward enc x).1) x).2
      = (spatialEncoderForward enc x).2 ∧
    (spatialEncoderForwardWithSkips ((spatialEncoderForwardWithSkips enc x).1) x).2
      = (spatialEncoderForwardWithSkips enc x).2 ∧
    (miForwardS mi mx).1 = mi ∧
    (miForwardS ((miForwardS mi mx).1) mx).2 = (miForwardS mi mx).2 ∧
    (peForwardS lvl px pin).1 = lvl ∧
    (peForwardS ((peForwardS lvl px pin).1) px pin).2
      = (peForwardS lvl px pin).2 ∧
    (cascForwardS cs hs).1 = (cs, hs) ∧
    (cascForwardS (cascForwardS cs hs).1.1 (cascForwardS cs hs).1.2).2
      = (cascForwardS cs hs).2 :=
  ⟨rfl, rfl, rfl, rfl, rfl, rfl, rfl, rfl, rfl, rfl⟩

end Quantnn
